import Mathlib

/-! Levenshtein distance with an optional threshold.

A shallow embedding of `ComputeDistance` (levenshtein.go) and its properties.

Modelling conventions.
* A Go string is taken as the sequence of code points it decodes to (well-formed
  UTF-8), so `len(a) == 0` is "no code point", `utf8.RuneCountInString` is the
  length and `a == b` is equality of the sequences.
* Go `int` is 64 bits wide; the only `int` sum that can wrap is `maxDist + 1`,
  modelled by `wrapInt`.  The variadic `threshold ...int` is a list of integers.
* `uint16` cells wrap modulo `65536`.
* Index and slice expressions are checked: an out-of-range one yields `none`.
-/

namespace GoLev

/-- A Unicode code point (Go `rune`); only equality of runes is ever used. -/
abbrev Rune := Nat

/-- The constant `minLengthThreshold` of levenshtein.go. -/
def minLengthThreshold : Int := 32

/-- The helper `absInt` of levenshtein.go. -/
def absInt (x : Int) : Int :=
  if x < 0 then -x else x

/-- Two's complement wrap-around of a 64-bit Go `int`. -/
def wrapInt (z : Int) : Int :=
  (z + 9223372036854775808) % 18446744073709551616 - 9223372036854775808

/-- The conversion `uint16(z)` of a Go `int`. -/
def uint16 (z : Int) : Nat :=
  (z % 65536).toNat

/-- The `uint16` sum `v + 1`. -/
def inc16 (v : Nat) : Nat :=
  (v + 1) % 65536

/-- The index expression `s[i]`; `none` when `i` is out of range. -/
def index {α : Type} (s : List α) (i : Int) : Option α :=
  if 0 ≤ i ∧ i < s.length then s[i.toNat]? else none

/-- The assignment `s[i] = v`; `none` when `i` is out of range. -/
def assign {α : Type} (s : List α) (i : Int) (v : α) : Option (List α) :=
  if 0 ≤ i ∧ i < s.length then some (s.set i.toNat v) else none

/-- The slice expression `s[lo:hi]`; `none` unless `0 ≤ lo ≤ hi ≤ len(s)`. -/
def slice {α : Type} (s : List α) (lo hi : Int) : Option (List α) :=
  if 0 ≤ lo ∧ lo ≤ hi ∧ hi ≤ s.length then some ((s.take hi.toNat).drop lo.toNat) else none

/-- The suffix-trim loop (lines 75-81), entered at counter `i` with `k` iterations left
before `i < len(s1)` fails. -/
def suffixLoop (s1 s2 : List Rune) : Nat → Nat → Option (List Rune × List Rune)
  | 0, _ => some (s1, s2)
  | k + 1, i => do
    let c1 ← index s1 ((s1.length : Int) - 1 - i)
    let c2 ← index s2 ((s2.length : Int) - 1 - i)
    if c1 ≠ c2 then do
      let t1 ← slice s1 0 ((s1.length : Int) - i)
      let t2 ← slice s2 0 ((s2.length : Int) - i)
      some (t1, t2)
    else suffixLoop s1 s2 k (i + 1)

/-- The prefix-trim loop (lines 83-89), entered at counter `i` with `k` iterations left. -/
def prefixLoop (s1 s2 : List Rune) : Nat → Nat → Option (List Rune × List Rune)
  | 0, _ => some (s1, s2)
  | k + 1, i => do
    let c1 ← index s1 i
    let c2 ← index s2 i
    if c1 ≠ c2 then do
      let t1 ← slice s1 i s1.length
      let t2 ← slice s2 i s2.length
      some (t1, t2)
    else prefixLoop s1 s2 k (i + 1)

/-- The allocation of the working array (lines 98-104): `lenS1 + 1` zero cells. -/
def makeX (lenS1 : Int) : Option (List Nat) :=
  if lenS1 + 1 > minLengthThreshold then some (List.replicate (lenS1 + 1).toNat 0)
  else slice (List.replicate minLengthThreshold.toNat 0) 0 (lenS1 + 1)

/-- The initialisation loop (lines 106-108), entered at counter `i` with `k` iterations
left before `i < len(x)` fails. -/
def initLoop : Nat → Nat → List Nat → Option (List Nat)
  | 0, _, x => some x
  | k + 1, i, x => do
    let x ← assign x i (uint16 i)
    initLoop k (i + 1) x

/-- The inner loop over `j` (lines 114-127) for row `i`, entered at counter `j` with `k`
iterations left before `j <= lenS1` fails.  The state is `(x, prev, minInRow)`. -/
def innerLoop (s1 s2 : List Rune) (i : Nat) :
    Nat → Nat → List Nat × Nat × Nat → Option (List Nat × Nat × Nat)
  | 0, _, st => some st
  | k + 1, j, (x, prev, minInRow) => do
    let xjm1 ← index x ((j : Int) - 1)
    let c2 ← index s2 ((i : Int) - 1)
    let c1 ← index s1 ((j : Int) - 1)
    let current ←
      if c2 ≠ c1 then do
        let xj ← index x j
        some (min (inc16 xjm1) (min (inc16 prev) (inc16 xj)))
      else some xjm1
    let x ← assign x ((j : Int) - 1) prev
    let minInRow := if current < minInRow then current else minInRow
    innerLoop s1 s2 i k (j + 1) (x, current, minInRow)

/-- The outer loop over `i` (lines 110-136), entered at counter `i` with `k` iterations
left before `i <= lenS2` fails, followed by the final `return int(x[lenS1])`. -/
def outerLoop (s1 s2 : List Rune) (maxDist : Int) : Nat → Nat → List Nat → Option Int
  | 0, _, x => do
    let r ← index x s1.length
    some (r : Int)
  | k + 1, i, x => do
    let prev := uint16 i
    let minInRow := prev
    let (x, prev, minInRow) ← innerLoop s1 s2 i s1.length 1 (x, prev, minInRow)
    let x ← assign x s1.length prev
    if maxDist ≥ 0 ∧ minInRow > uint16 maxDist then some (wrapInt (maxDist + 1))
    else outerLoop s1 s2 maxDist k (i + 1) x

/-- Lines 75-136 of `ComputeDistance`: both trims, the length check and the sweep, on
the working sequences `s1`, `s2` as they are after the swap of lines 71-73. -/
def trimAndSweep (s1 s2 : List Rune) (maxDist : Int) : Option Int := do
  let (s1, s2) ← suffixLoop s1 s2 s1.length 0
  let (s1, s2) ← prefixLoop s1 s2 s1.length 0
  let lenS1 : Int := s1.length
  let lenS2 : Int := s2.length
  if maxDist ≥ 0 ∧ absInt (lenS1 - lenS2) > maxDist then some (wrapInt (maxDist + 1))
  else do
    let x ← makeX lenS1
    let x ← initLoop (x.length - 1) 1 x
    outerLoop s1 s2 maxDist s2.length 1 x

/-- The local `maxDist` (lines 41-46): the first threshold given, `-1` when there is none. -/
def maxDist : List Int → Int
  | t :: _ => t
  | [] => -1

/-- The function `ComputeDistance` of levenshtein.go. -/
def ComputeDistance (a b : List Rune) (threshold : List Int) : Option Int :=
  let maxDist : Int := maxDist threshold
  if a.length = 0 then
    let dist : Int := b.length
    if maxDist ≥ 0 ∧ dist > maxDist then some (wrapInt (maxDist + 1)) else some dist
  else if b.length = 0 then
    let dist : Int := a.length
    if maxDist ≥ 0 ∧ dist > maxDist then some (wrapInt (maxDist + 1)) else some dist
  else if a = b then some 0
  else if a.length > b.length then trimAndSweep b a maxDist
  else trimAndSweep a b maxDist

/-- The Levenshtein distance by its standard recursive definition: the length of the
other sequence when one is empty, the distance of the tails when the heads agree, and
otherwise one more than the least of the three distances reached by a deletion, an
insertion or a substitution. -/
def lev : List Rune → List Rune → Nat
  | [], ys => ys.length
  | xs, [] => xs.length
  | x :: xs, y :: ys =>
    if x = y then lev xs ys
    else 1 + min (lev xs (y :: ys)) (min (lev (x :: xs) ys) (lev xs ys))

/-! ## A functional reading of the sweep

The same computation as `innerLoop`/`outerLoop`, cell by cell, without the array. -/

/-- One cell of the row (lines 115-119): `c` is the rune of the row, `a` the rune of the
column, `diag`, `prev` and `up` the cells to the upper left, to the left and above. -/
def cell (c a : Rune) (diag prev up : Nat) : Nat :=
  if c ≠ a then min (inc16 diag) (min (inc16 prev) (inc16 up)) else diag

/-- The cells of columns `j, j+1, ...` of the row of rune `c`, given the remaining runes of
`s1`, the cell `diag` above column `j-1`, the cells `rest` above columns `j, j+1, ...` and
the cell `prev` of column `j-1`. -/
def cells (c : Rune) : List Rune → Nat → List Nat → Nat → List Nat
  | a :: s, diag, up :: rest, prev =>
    cell c a diag prev up :: cells c s up rest (cell c a diag prev up)
  | _, _, _, _ => []

/-- The running minimum `minInRow` (lines 124-126) after the cells `cs`. -/
def minRow (m : Nat) (cs : List Nat) : Nat :=
  cs.foldl (fun m c => if c < m then c else m) m

/-- The rows of the sweep for the remaining runes of `s2`, from counter `i` and row `x`. -/
def sweepRows (s1 : List Rune) (maxDist : Int) : List Rune → Nat → List Nat → Int
  | [], _, x => ((x.getD s1.length 0 : Nat) : Int)
  | _ :: _, _, [] => 0
  | c :: r, i, diag :: rest =>
    if maxDist ≥ 0 ∧ minRow (uint16 i) (cells c s1 diag rest (uint16 i)) > uint16 maxDist then
      wrapInt (maxDist + 1)
    else sweepRows s1 maxDist r (i + 1) (uint16 i :: cells c s1 diag rest (uint16 i))

/-- The working array after lines 98-108, for `lenS1 = n`. -/
def initRow (n : Nat) : List Nat :=
  0 :: (List.range' 1 n).map (fun (j : Nat) => uint16 (j : Int))

/-- The row of distances from `P` to `Q`, `Q ++ s[:1]`, ..., `Q ++ s`. -/
def levRow (P : List Rune) : List Rune → List Rune → List Nat
  | Q, [] => [lev P Q]
  | Q, a :: s => lev P Q :: levRow P (Q ++ [a]) s

/-! ## The state of the sweep between rows -/

/-- The body of the outer loop for row `i` without its early exit (lines 111-129): the
working array after the row, and the minimum `minInRow` of the row. -/
def rowBody (s1 s2 : List Rune) (i : Nat) (x : List Nat) : Option (List Nat × Nat) := do
  let prev := uint16 i
  let minInRow := prev
  let (x, prev, minInRow) ← innerLoop s1 s2 i s1.length 1 (x, prev, minInRow)
  let x ← assign x s1.length prev
  some (x, minInRow)

/-- The working array at the start of row `i + 1`: lines 98-108 followed by `i` rows of the
sweep, none of which took the early exit. -/
def rowAt (s1 s2 : List Rune) : Nat → Option (List Nat)
  | 0 => do
    let x ← makeX s1.length
    initLoop (x.length - 1) 1 x
  | i + 1 => do
    let x ← rowAt s1 s2 i
    let (x, _) ← rowBody s1 s2 (i + 1) x
    some x

/-! ## Common prefixes and suffixes -/

/-- The length of the longest common prefix of two sequences. -/
def commonPrefixLen : List Rune → List Rune → Nat
  | x :: xs, y :: ys => if x = y then commonPrefixLen xs ys + 1 else 0
  | _, _ => 0

/-- The length of the longest common suffix of two sequences. -/
def commonSuffixLen (a b : List Rune) : Nat :=
  commonPrefixLen a.reverse b.reverse

/-! ## The recursive distance -/

@[simp] theorem lev_nil_left (ys : List Rune) : lev [] ys = ys.length := by
  simp [lev]

@[simp] theorem lev_nil_right (xs : List Rune) : lev xs [] = xs.length := by
  cases xs <;> simp [lev]

theorem lev_cons_cons (x y : Rune) (xs ys : List Rune) :
    lev (x :: xs) (y :: ys) =
      if x = y then lev xs ys
      else 1 + min (lev xs (y :: ys)) (min (lev (x :: xs) ys) (lev xs ys)) := by
  rw [lev]

theorem lev_comm (xs ys : List Rune) : lev xs ys = lev ys xs := by
  induction xs, ys using lev.induct with
  | case1 ys => simp
  | case2 xs _ => simp
  | case3 x xs ys ih =>
    simp [lev_cons_cons, ih]
  | case4 x xs y ys h ih1 ih2 ih3 =>
    have h' : ¬ y = x := fun e => h e.symm
    simp only [lev_cons_cons, if_neg h, if_neg h', ih1, ih2, ih3]
    omega

theorem lev_le_max (xs ys : List Rune) : lev xs ys ≤ max xs.length ys.length := by
  induction xs, ys using lev.induct with
  | case1 ys => simp
  | case2 xs _ => simp
  | case3 x xs ys ih =>
    simp only [lev_cons_cons, if_true, List.length_cons]
    omega
  | case4 x xs y ys h ih1 ih2 ih3 =>
    simp only [lev_cons_cons, if_neg h, List.length_cons] at *
    omega

theorem lev_ge_sub (xs ys : List Rune) :
    xs.length ≤ ys.length + lev xs ys ∧ ys.length ≤ xs.length + lev xs ys := by
  induction xs, ys using lev.induct with
  | case1 ys => simp
  | case2 xs _ => simp
  | case3 x xs ys ih =>
    simp only [lev_cons_cons, if_true, List.length_cons]
    omega
  | case4 x xs y ys h ih1 ih2 ih3 =>
    simp only [lev_cons_cons, if_neg h, List.length_cons] at *
    omega

theorem lev_self (xs : List Rune) : lev xs xs = 0 := by
  induction xs with
  | nil => simp
  | cons x xs ih => simp [lev_cons_cons, ih]

theorem lev_append_left (p xs ys : List Rune) : lev (p ++ xs) (p ++ ys) = lev xs ys := by
  induction p with
  | nil => simp
  | cons c p ih => simp [lev_cons_cons, ih]

theorem lev_single_snoc (x y : Rune) (ys : List Rune) :
    lev [x] (ys ++ [y]) =
      if x = y then ys.length
      else 1 + min (ys.length + 1) (min (lev [x] ys) ys.length) := by
  induction ys with
  | nil => simp [lev_cons_cons]
  | cons b ys ih =>
    simp only [List.cons_append, lev_cons_cons, lev_nil_left, List.length_append,
      List.length_cons, List.length_nil, ih]
    split_ifs <;> omega

theorem lev_snoc_snoc (x y : Rune) (xs ys : List Rune) :
    lev (xs ++ [x]) (ys ++ [y]) =
      if x = y then lev xs ys
      else 1 + min (lev xs (ys ++ [y])) (min (lev (xs ++ [x]) ys) (lev xs ys)) := by
  induction xs, ys using lev.induct with
  | case1 ys =>
    simp only [List.nil_append, lev_single_snoc, lev_nil_left, List.length_append,
      List.length_cons, List.length_nil]
  | case2 xs _ =>
    rw [lev_comm (xs ++ [x]) ([] ++ [y]), lev_comm xs ([] ++ [y])]
    simp only [List.nil_append, lev_single_snoc, lev_nil_right, List.length_append,
      List.length_cons, List.length_nil]
    by_cases h : x = y
    · subst h; simp
    · have h' : ¬ y = x := fun e => h e.symm
      simp only [if_neg h, if_neg h']
      omega
  | case3 a xs ys ih =>
    simp only [List.cons_append, lev_cons_cons, if_true, ih]
  | case4 a xs b ys h ih1 ih2 ih3 =>
    simp only [List.cons_append] at ih1 ih2 ih3 ⊢
    simp only [lev_cons_cons, if_neg h, ih1, ih2, ih3]
    by_cases h2 : x = y
    · simp only [h2, if_true]
    · simp only [if_neg h2]
      clear ih1 ih2 ih3
      generalize lev xs (b :: (ys ++ [y])) = A
      generalize lev (xs ++ [x]) (b :: ys) = B
      generalize lev xs (b :: ys) = C
      generalize lev (a :: xs) (ys ++ [y]) = D
      generalize lev (a :: (xs ++ [x])) ys = E
      generalize lev (a :: xs) ys = F
      generalize lev xs (ys ++ [y]) = G
      generalize lev (xs ++ [x]) ys = H
      generalize lev xs ys = I
      simp only [Nat.add_min_add_left]
      congr 2
      ac_rfl

theorem lev_append_right (s xs ys : List Rune) : lev (xs ++ s) (ys ++ s) = lev xs ys := by
  induction s using List.reverseRecOn with
  | nil => simp
  | append_singleton s c ih =>
    rw [← List.append_assoc, ← List.append_assoc, lev_snoc_snoc, if_pos rfl, ih]

/-! ## Checked indexing -/

theorem index_of_eq {α : Type} (s : List α) (z : Int) (n : Nat) (v : α) (hz : z = n)
    (hv : s[n]? = some v) : index s z = some v := by
  subst hz
  have hn : n < s.length := by
    rcases Nat.lt_or_ge n s.length with h | h
    · exact h
    · rw [List.getElem?_eq_none h] at hv
      exact absurd hv (by simp)
  unfold index
  rw [if_pos ⟨by omega, by exact_mod_cast hn⟩]
  simpa using hv

theorem assign_of_eq {α : Type} (s : List α) (z : Int) (n : Nat) (v : α) (hz : z = n)
    (hn : n < s.length) : assign s z v = some (s.set n v) := by
  subst hz
  unfold assign
  rw [if_pos ⟨by omega, by exact_mod_cast hn⟩]
  simp

theorem slice_of_eq {α : Type} (s : List α) (lo hi : Int) (m n : Nat) (hlo : lo = m)
    (hhi : hi = n) (hmn : m ≤ n) (hn : n ≤ s.length) :
    slice s lo hi = some ((s.take n).drop m) := by
  subst hlo hhi
  unfold slice
  rw [if_pos ⟨by omega, by exact_mod_cast hmn, by exact_mod_cast hn⟩]
  simp

theorem getElem?_append_mid {α : Type} (l : List α) (v : α) (r : List α) :
    (l ++ v :: r)[l.length]? = some v := by
  rw [List.getElem?_append_right (Nat.le_refl _)]
  simp

theorem set_append_mid {α : Type} (l : List α) (v w : α) (r : List α) :
    (l ++ v :: r).set l.length w = l ++ w :: r := by
  simp

/-! ## The two trimming loops -/

theorem suffixLoop_spec (k : Nat) : ∀ (u1 u2 s : List Rune), u1.length = k → k ≤ u2.length →
    ∃ t1 t2 s', suffixLoop (u1 ++ s) (u2 ++ s) k s.length = some (t1, t2) ∧
      u1 ++ s = t1 ++ s' ∧ u2 ++ s = t2 ++ s' ∧ t1.length ≤ t2.length := by
  induction k with
  | zero =>
    intro u1 u2 s h1 _
    refine ⟨u1 ++ s, u2 ++ s, [], by simp [suffixLoop], by simp, by simp, ?_⟩
    simp only [List.length_append]
    omega
  | succ k ih =>
    intro u1 u2 s h1 h2
    rcases List.eq_nil_or_concat u1 with e | ⟨v1, c1, e⟩
    · subst e; simp only [List.length_nil] at h1; omega
    rcases List.eq_nil_or_concat u2 with e' | ⟨v2, c2, e'⟩
    · subst e'; simp only [List.length_nil] at h2; omega
    subst e e'
    simp only [List.concat_eq_append] at h1 h2 ⊢
    simp only [List.length_append, List.length_cons, List.length_nil] at h1 h2
    have i1 : index (v1 ++ [c1] ++ s) (((v1 ++ [c1] ++ s).length : Int) - 1 - (s.length : Nat))
        = some c1 := by
      apply index_of_eq _ _ v1.length
      · simp only [List.length_append, List.length_cons, List.length_nil]; push_cast; omega
      · rw [List.append_assoc]; exact getElem?_append_mid _ _ _
    have i2 : index (v2 ++ [c2] ++ s) (((v2 ++ [c2] ++ s).length : Int) - 1 - (s.length : Nat))
        = some c2 := by
      apply index_of_eq _ _ v2.length
      · simp only [List.length_append, List.length_cons, List.length_nil]; push_cast; omega
      · rw [List.append_assoc]; exact getElem?_append_mid _ _ _
    by_cases hc : c1 = c2
    · subst hc
      obtain ⟨t1, t2, s', e1, e2, e3, e4⟩ := ih v1 v2 (c1 :: s) (by omega) (by omega)
      refine ⟨t1, t2, s', ?_, by simpa using e2, by simpa using e3, e4⟩
      simp only [suffixLoop, i1, i2, Option.bind_eq_bind, Option.some_bind, ne_eq,
        not_true_eq_false, if_false]
      simpa using e1
    · have j1 : slice (v1 ++ [c1] ++ s) 0 (((v1 ++ [c1] ++ s).length : Int) - (s.length : Nat))
          = some (v1 ++ [c1]) := by
        rw [slice_of_eq _ _ _ 0 (v1.length + 1) (by simp)
          (by simp only [List.length_append, List.length_cons, List.length_nil]; push_cast; omega)
          (by omega) (by simp)]
        rw [List.take_left' (by simp)]
        simp
      have j2 : slice (v2 ++ [c2] ++ s) 0 (((v2 ++ [c2] ++ s).length : Int) - (s.length : Nat))
          = some (v2 ++ [c2]) := by
        rw [slice_of_eq _ _ _ 0 (v2.length + 1) (by simp)
          (by simp only [List.length_append, List.length_cons, List.length_nil]; push_cast; omega)
          (by omega) (by simp)]
        rw [List.take_left' (by simp)]
        simp
      refine ⟨v1 ++ [c1], v2 ++ [c2], s, ?_, rfl, rfl, ?_⟩
      · simp only [suffixLoop, i1, i2, j1, j2, Option.bind_eq_bind, Option.some_bind, ne_eq, hc,
          not_false_eq_true, if_true]
      · simp only [List.length_append, List.length_cons, List.length_nil]; omega

theorem prefixLoop_spec (k : Nat) : ∀ (p u1 u2 : List Rune), u1.length = k → k ≤ u2.length →
    ∃ t1 t2 p', prefixLoop (p ++ u1) (p ++ u2) k p.length = some (t1, t2) ∧
      p ++ u1 = p' ++ t1 ∧ p ++ u2 = p' ++ t2 ∧ t1.length ≤ t2.length := by
  induction k with
  | zero =>
    intro p u1 u2 h1 _
    refine ⟨p ++ u1, p ++ u2, [], by simp [prefixLoop], by simp, by simp, ?_⟩
    simp only [List.length_append]
    omega
  | succ k ih =>
    intro p u1 u2 h1 h2
    cases u1 with
    | nil => simp only [List.length_nil] at h1; omega
    | cons c1 v1 =>
    cases u2 with
    | nil => simp only [List.length_nil] at h2; omega
    | cons c2 v2 =>
    simp only [List.length_cons] at h1 h2
    have i1 : index (p ++ c1 :: v1) ((p.length : Nat) : Int) = some c1 :=
      index_of_eq _ _ p.length _ rfl (getElem?_append_mid _ _ _)
    have i2 : index (p ++ c2 :: v2) ((p.length : Nat) : Int) = some c2 :=
      index_of_eq _ _ p.length _ rfl (getElem?_append_mid _ _ _)
    by_cases hc : c1 = c2
    · subst hc
      obtain ⟨t1, t2, p', e1, e2, e3, e4⟩ := ih (p ++ [c1]) v1 v2 (by omega) (by omega)
      refine ⟨t1, t2, p', ?_, by simpa using e2, by simpa using e3, e4⟩
      simp only [prefixLoop, i1, i2, Option.bind_eq_bind, Option.some_bind, ne_eq,
        not_true_eq_false, if_false]
      simpa using e1
    · have j1 : slice (p ++ c1 :: v1) ((p.length : Nat) : Int) (((p ++ c1 :: v1).length : Nat) : Int)
          = some (c1 :: v1) := by
        rw [slice_of_eq _ _ _ p.length (p ++ c1 :: v1).length rfl rfl (by simp) (Nat.le_refl _)]
        rw [List.take_length, List.drop_left]
      have j2 : slice (p ++ c2 :: v2) ((p.length : Nat) : Int) (((p ++ c2 :: v2).length : Nat) : Int)
          = some (c2 :: v2) := by
        rw [slice_of_eq _ _ _ p.length (p ++ c2 :: v2).length rfl rfl (by simp) (Nat.le_refl _)]
        rw [List.take_length, List.drop_left]
      refine ⟨c1 :: v1, c2 :: v2, p, ?_, rfl, rfl, ?_⟩
      · simp only [prefixLoop, i1, i2, j1, j2, Option.bind_eq_bind, Option.some_bind, ne_eq, hc,
          not_false_eq_true, if_true]
      · simp only [List.length_cons]; omega

/-! ## Allocation and initialisation of the working array -/

theorem makeX_eq (n : Nat) : makeX (n : Int) = some (List.replicate (n + 1) 0) := by
  unfold makeX minLengthThreshold
  split_ifs with h
  · congr 1
  · rw [slice_of_eq _ _ _ 0 (n + 1) (by simp) (by push_cast; rfl) (by omega)
      (by simp only [List.length_replicate]; omega)]
    simp only [List.drop_zero, List.take_replicate]
    congr 2
    omega

theorem initLoop_spec (k : Nat) : ∀ (i : Nat) (pre zs : List Nat), pre.length = i →
    zs.length = k →
    initLoop k i (pre ++ zs) = some (pre ++ (List.range' i k).map (fun (j : Nat) => uint16 (j : Int))) := by
  induction k with
  | zero =>
    intro i pre zs _ h2
    have : zs = [] := List.eq_nil_of_length_eq_zero h2
    subst this
    simp [initLoop]
  | succ k ih =>
    intro i pre zs h1 h2
    cases zs with
    | nil => simp only [List.length_nil] at h2; omega
    | cons z zs =>
    simp only [List.length_cons] at h2
    subst h1
    have a1 : assign (pre ++ z :: zs) ((pre.length : Nat) : Int) (uint16 (pre.length : Int))
        = some (pre ++ uint16 (pre.length : Int) :: zs) := by
      rw [assign_of_eq _ _ pre.length _ rfl (by simp), set_append_mid]
    have := ih (pre.length + 1) (pre ++ [uint16 (pre.length : Int)]) zs (by simp) (by omega)
    simp only [initLoop, a1, Option.bind_eq_bind, Option.some_bind]
    simp only [List.append_assoc, List.singleton_append] at this
    rw [this]
    simp [List.range'_succ]

/-! ## The sweep: the array loops compute the functional reading -/

theorem cells_length (c : Rune) : ∀ (s : List Rune) (diag : Nat) (rest : List Nat) (prev : Nat),
    rest.length = s.length → (cells c s diag rest prev).length = s.length := by
  intro s
  induction s with
  | nil => intro diag rest prev _; simp [cells]
  | cons a s ih =>
    intro diag rest prev h
    cases rest with
    | nil => simp at h
    | cons up rest =>
      simp only [List.length_cons, Nat.add_right_cancel_iff] at h
      simp [cells, ih up rest _ h]

theorem innerLoop_spec (s1 s2 : List Rune) (i : Nat) (c : Rune)
    (hc : index s2 ((i : Int) - 1) = some c) (k : Nat) :
    ∀ (d1 r1 : List Rune) (done rest : List Nat) (diag prev m : Nat),
      s1 = d1 ++ r1 → d1.length = done.length → r1.length = k → rest.length = k →
      ∃ X p, innerLoop s1 s2 i k (done.length + 1) (done ++ diag :: rest, prev, m)
          = some (X, p, minRow m (cells c r1 diag rest prev)) ∧
        assign X ((done.length + k : Nat) : Int) p
          = some (done ++ prev :: cells c r1 diag rest prev) := by
  induction k with
  | zero =>
    intro d1 r1 done rest diag prev m _ _ h3 h4
    have e1 : r1 = [] := List.eq_nil_of_length_eq_zero h3
    have e2 : rest = [] := List.eq_nil_of_length_eq_zero h4
    subst e1 e2
    refine ⟨done ++ [diag], prev, by simp [innerLoop, cells, minRow], ?_⟩
    rw [assign_of_eq _ _ done.length _ (by simp) (by simp), set_append_mid]
    simp [cells]
  | succ k ih =>
    intro d1 r1 done rest diag prev m hs hd h3 h4
    cases r1 with
    | nil => simp only [List.length_nil] at h3; omega
    | cons a r1 =>
    cases rest with
    | nil => simp only [List.length_nil] at h4; omega
    | cons up rest =>
    simp only [List.length_cons, Nat.add_right_cancel_iff] at h3 h4
    have x1 : index (done ++ diag :: up :: rest) (((done.length + 1 : Nat) : Int) - 1)
        = some diag :=
      index_of_eq _ _ done.length _ (by push_cast; omega) (getElem?_append_mid _ _ _)
    have x2 : index (done ++ diag :: up :: rest) ((done.length + 1 : Nat) : Int) = some up := by
      apply index_of_eq _ _ (done.length + 1) _ rfl
      have := getElem?_append_mid (done ++ [diag]) up rest
      simpa using this
    have x3 : index s1 (((done.length + 1 : Nat) : Int) - 1) = some a := by
      subst hs
      rw [← hd]
      exact index_of_eq _ _ d1.length _ (by push_cast; omega) (getElem?_append_mid _ _ _)
    have x4 : assign (done ++ diag :: up :: rest) (((done.length + 1 : Nat) : Int) - 1) prev
        = some (done ++ prev :: up :: rest) := by
      rw [assign_of_eq _ _ done.length _ (by push_cast; omega) (by simp), set_append_mid]
    obtain ⟨X, p, e1, e2⟩ := ih (d1 ++ [a]) r1 (done ++ [prev]) rest up (cell c a diag prev up)
      (if cell c a diag prev up < m then cell c a diag prev up else m)
      (by simp [hs]) (by simp [hd]) h3 h4
    refine ⟨X, p, ?_, ?_⟩
    · simp only [List.length_append, List.length_cons, List.length_nil, List.append_assoc,
        List.singleton_append, Nat.zero_add] at e1
      by_cases hca : c = a
      · simp only [innerLoop, x1, hc, x3, x4, Option.bind_eq_bind, Option.some_bind, ne_eq, hca,
          not_true_eq_false, if_false]
        simp only [cell, hca, ne_eq, not_true_eq_false, if_false] at e1
        simpa [cells, cell, minRow] using e1
      · simp only [innerLoop, x1, x2, hc, x3, x4, Option.bind_eq_bind, Option.some_bind, ne_eq,
          hca, not_false_eq_true, if_true]
        simp only [cell, hca, ne_eq, not_false_eq_true, if_true] at e1
        simpa [cells, cell, minRow, hca] using e1
    · simp only [List.length_append, List.length_cons, List.length_nil, List.append_assoc,
        List.singleton_append, Nat.zero_add] at e2
      have : done.length + 1 + k = done.length + (k + 1) := by omega
      rw [this] at e2
      simpa [cells] using e2

theorem outerLoop_spec (s1 s2 : List Rune) (maxDist : Int) (k : Nat) :
    ∀ (P R : List Rune) (x : List Nat), s2 = P ++ R → R.length = k →
      x.length = s1.length + 1 →
      outerLoop s1 s2 maxDist k (P.length + 1) x
        = some (sweepRows s1 maxDist R (P.length + 1) x) := by
  induction k with
  | zero =>
    intro P R x _ h2 h3
    have e : R = [] := List.eq_nil_of_length_eq_zero h2
    subst e
    have hx : x[s1.length]? = some (x.getD s1.length 0) := by
      rw [List.getD_eq_getElem?_getD, List.getElem?_eq_getElem (by omega)]
      simp
    simp only [outerLoop, sweepRows, index_of_eq x _ s1.length _ rfl hx, Option.bind_eq_bind,
      Option.some_bind]
  | succ k ih =>
    intro P R x hs h2 h3
    cases R with
    | nil => simp only [List.length_nil] at h2; omega
    | cons c R =>
    cases x with
    | nil => simp only [List.length_nil] at h3; omega
    | cons diag rest =>
    simp only [List.length_cons, Nat.add_right_cancel_iff] at h2 h3
    have hc : index s2 (((P.length + 1 : Nat) : Int) - 1) = some c := by
      subst hs
      exact index_of_eq _ _ P.length _ (by push_cast; omega) (getElem?_append_mid _ _ _)
    obtain ⟨X, p, e1, e2⟩ := innerLoop_spec s1 s2 (P.length + 1) c hc s1.length [] s1 [] rest
      diag (uint16 ((P.length + 1 : Nat) : Int)) (uint16 ((P.length + 1 : Nat) : Int))
      rfl rfl rfl h3
    simp only [List.length_nil, Nat.zero_add, List.nil_append] at e1 e2
    have hlen : (uint16 ((P.length + 1 : Nat) : Int) ::
        cells c s1 diag rest (uint16 ((P.length + 1 : Nat) : Int))).length = s1.length + 1 := by
      simp [cells_length c s1 diag rest _ h3]
    have := ih (P ++ [c]) R _ (by simp [hs]) h2 hlen
    simp only [List.length_append, List.length_cons, List.length_nil, Nat.zero_add] at this
    simp only [outerLoop, e1, e2, Option.bind_eq_bind, Option.some_bind, sweepRows]
    split_ifs with hp
    · rfl
    · exact this

theorem trimAndSweep_spec (s1 s2 : List Rune) (maxDist : Int) (h : s1.length ≤ s2.length) :
    ∃ p t1 t2 s, s1 = p ++ t1 ++ s ∧ s2 = p ++ t2 ++ s ∧ t1.length ≤ t2.length ∧
      trimAndSweep s1 s2 maxDist = some
        (if maxDist ≥ 0 ∧ absInt ((t1.length : Int) - (t2.length : Int)) > maxDist then
          wrapInt (maxDist + 1)
        else sweepRows t1 maxDist t2 1 (initRow t1.length)) := by
  obtain ⟨u1, u2, s, e1, e2, e3, e4⟩ := suffixLoop_spec s1.length s1 s2 [] rfl h
  simp only [List.append_nil, List.length_nil] at e1 e2 e3
  obtain ⟨t1, t2, p, f1, f2, f3, f4⟩ := prefixLoop_spec u1.length [] u1 u2 rfl e4
  simp only [List.nil_append, List.length_nil] at f1 f2 f3
  refine ⟨p, t1, t2, s, by rw [e2, f2], by rw [e3, f3], f4, ?_⟩
  have hx : initLoop ((List.replicate (t1.length + 1) 0).length - 1) 1
      (List.replicate (t1.length + 1) 0) = some (initRow t1.length) := by
    have := initLoop_spec t1.length 1 [0] (List.replicate t1.length 0) rfl (by simp)
    simpa [List.replicate_succ, initRow] using this
  have ho := outerLoop_spec t1 t2 maxDist t2.length [] t2 (initRow t1.length) rfl rfl
    (by simp only [initRow, List.length_cons, List.length_map, List.length_range'])
  simp only [List.length_nil, Nat.zero_add] at ho
  simp only [trimAndSweep, e1, f1, Option.bind_eq_bind, Option.some_bind, makeX_eq, hx, ho]
  split_ifs <;> rfl

/-! ## Rows of distances -/

theorem levRow_eq_cons (P : List Rune) (Q s : List Rune) :
    levRow P Q s = lev P Q :: (levRow P Q s).tail := by
  cases s <;> simp [levRow]

theorem levRow_length (P : List Rune) : ∀ (s Q : List Rune),
    (levRow P Q s).length = s.length + 1 := by
  intro s
  induction s with
  | nil => intro Q; simp [levRow]
  | cons a s ih => intro Q; simp [levRow, ih]

theorem levRow_getD_last (P : List Rune) : ∀ (s Q : List Rune),
    (levRow P Q s).getD s.length 0 = lev P (Q ++ s) := by
  intro s
  induction s with
  | nil => intro Q; simp [levRow]
  | cons a s ih =>
    intro Q
    have := ih (Q ++ [a])
    simpa [levRow] using this

theorem levRow_mem_last (P : List Rune) : ∀ (s Q : List Rune),
    lev P (Q ++ s) ∈ levRow P Q s := by
  intro s
  induction s with
  | nil => intro Q; simp [levRow]
  | cons a s ih =>
    intro Q
    have := ih (Q ++ [a])
    simp only [List.append_assoc, List.singleton_append] at this
    simp [levRow, this]

theorem levRow_nil_left : ∀ (s Q : List Rune),
    levRow [] Q s = List.range' Q.length (s.length + 1) := by
  intro s
  induction s with
  | nil => intro Q; simp [levRow]
  | cons a s ih =>
    intro Q
    rw [levRow, ih, List.length_cons, List.range'_succ Q.length (s.length + 1)]
    simp

theorem uint16_of_lt (n : Nat) (h : n < 65536) : uint16 (n : Int) = n := by
  unfold uint16
  omega

theorem uint16_lt (z : Int) : uint16 z < 65536 := by
  unfold uint16
  omega

theorem inc16_lt (v : Nat) : inc16 v < 65536 := by
  unfold inc16
  omega

theorem initRow_eq_levRow (s1 : List Rune) (h : s1.length ≤ 65535) :
    initRow s1.length = levRow [] [] s1 := by
  rw [levRow_nil_left, List.length_nil, List.range'_succ]
  unfold initRow
  congr 1
  have : ∀ j ∈ List.range' 1 s1.length, (fun (j : Nat) => uint16 (j : Int)) j = id j := by
    intro j hj
    rw [List.mem_range'_1] at hj
    exact uint16_of_lt j (by omega)
  rw [List.map_congr_left this, List.map_id]

theorem initRow_lt (n : Nat) : ∀ v ∈ initRow n, v < 65536 := by
  intro v hv
  simp only [initRow, List.mem_cons, List.mem_map] at hv
  rcases hv with rfl | ⟨j, _, rfl⟩
  · omega
  · exact uint16_lt _

theorem cell_lev (c a : Rune) (P Q : List Rune) (hP : P.length < 65534)
    (hQ : Q.length < 65534) :
    cell c a (lev P Q) (lev (P ++ [c]) Q) (lev P (Q ++ [a])) = lev (P ++ [c]) (Q ++ [a]) := by
  have b1 := lev_le_max P Q
  have b2 := lev_le_max (P ++ [c]) Q
  have b3 := lev_le_max P (Q ++ [a])
  simp only [List.length_append, List.length_cons, List.length_nil] at b2 b3
  rw [lev_snoc_snoc]
  unfold cell inc16
  rw [Nat.mod_eq_of_lt (by omega : lev P Q + 1 < 65536),
    Nat.mod_eq_of_lt (by omega : lev (P ++ [c]) Q + 1 < 65536),
    Nat.mod_eq_of_lt (by omega : lev P (Q ++ [a]) + 1 < 65536)]
  by_cases h : c = a
  · simp [h]
  · simp only [ne_eq, h, not_false_eq_true, if_true, if_false]
    omega

theorem cells_lev (c : Rune) (P : List Rune) (hP : P.length < 65534) :
    ∀ (s Q : List Rune), Q.length + s.length ≤ 65534 →
      cells c s (lev P Q) (levRow P Q s).tail (lev (P ++ [c]) Q)
        = (levRow (P ++ [c]) Q s).tail := by
  intro s
  induction s with
  | nil => intro Q _; simp [cells, levRow]
  | cons a s ih =>
    intro Q hQ
    simp only [List.length_cons] at hQ
    have hQ' : (Q ++ [a]).length + s.length ≤ 65534 := by
      simp only [List.length_append, List.length_cons, List.length_nil]
      omega
    have e := ih (Q ++ [a]) hQ'
    simp only [levRow, List.tail_cons]
    rw [levRow_eq_cons P (Q ++ [a]) s, levRow_eq_cons (P ++ [c]) (Q ++ [a]) s]
    simp only [cells, cell_lev c a P Q hP (by omega), e]

/-! ## The running minimum and the monotonicity of rows -/

theorem minRow_le (cs : List Nat) : ∀ (m : Nat), ∀ v ∈ m :: cs, minRow m cs ≤ v := by
  induction cs with
  | nil => intro m v hv; simp only [List.mem_singleton] at hv; subst hv; simp [minRow]
  | cons c cs ih =>
    intro m v hv
    have step : minRow m (c :: cs) = minRow (if c < m then c else m) cs := by
      simp [minRow]
    rw [step]
    have h0 := ih (if c < m then c else m) (if c < m then c else m) (List.mem_cons_self _ _)
    simp only [List.mem_cons] at hv
    rcases hv with rfl | rfl | hv
    · split_ifs at h0 ⊢ <;> omega
    · split_ifs at h0 ⊢ <;> omega
    · exact ih _ v (List.mem_cons_of_mem _ hv)

theorem levRow_step_lb (c : Rune) (P : List Rune) (lb : Nat) : ∀ (s Q : List Rune),
    (∀ v ∈ levRow P Q s, lb ≤ v) → lb ≤ lev (P ++ [c]) Q →
    ∀ v ∈ levRow (P ++ [c]) Q s, lb ≤ v := by
  intro s
  induction s with
  | nil =>
    intro Q _ h2 v hv
    simp only [levRow, List.mem_singleton] at hv
    subst hv
    exact h2
  | cons a s ih =>
    intro Q h1 h2 v hv
    simp only [levRow, List.mem_cons] at hv h1
    rcases hv with rfl | hv
    · exact h2
    · have g1 : lb ≤ lev P Q := h1 _ (Or.inl rfl)
      have g2 : lb ≤ lev P (Q ++ [a]) := by
        apply h1 _ (Or.inr _)
        rw [levRow_eq_cons]
        exact List.mem_cons_self _ _
      refine ih (Q ++ [a]) (fun w hw => h1 w (Or.inr hw)) ?_ v hv
      rw [lev_snoc_snoc]
      split_ifs <;> omega

theorem levRow_append_lb (s1 : List Rune) (lb : Nat) : ∀ (R P : List Rune),
    (∀ v ∈ levRow P [] s1, lb ≤ v) → lb ≤ lev (P ++ R) s1 := by
  intro R
  induction R with
  | nil =>
    intro P h
    have := levRow_mem_last P s1 []
    simpa using h _ this
  | cons c R ih =>
    intro P h
    have h0 : lb ≤ lev P [] := by
      apply h
      rw [levRow_eq_cons]
      exact List.mem_cons_self _ _
    have := ih (P ++ [c]) (levRow_step_lb c P lb s1 [] h (by
      simp only [lev_nil_right, List.length_append, List.length_cons, List.length_nil] at h0 ⊢
      omega))
    simpa using this

/-! ## The sweep computes the distance, or stops above the threshold -/

theorem wrapInt_of_small (z : Int) (h0 : 0 ≤ z) (h1 : z ≤ 65536) : wrapInt z = z := by
  unfold wrapInt
  omega

theorem sweepRows_lev (s1 : List Rune) (maxDist : Int) (h1 : s1.length ≤ 65534)
    (hm : maxDist ≤ 65535) : ∀ (R P : List Rune), (P ++ R).length ≤ 65534 →
      sweepRows s1 maxDist R (P.length + 1) (levRow P [] s1) = (lev (P ++ R) s1 : Int) ∨
      (0 ≤ maxDist ∧ maxDist < (lev (P ++ R) s1 : Int) ∧
        sweepRows s1 maxDist R (P.length + 1) (levRow P [] s1) = maxDist + 1) := by
  intro R
  induction R with
  | nil =>
    intro P _
    left
    simp only [sweepRows, levRow_getD_last, List.nil_append, List.append_nil]
  | cons c R ih =>
    intro P hlen
    simp only [List.length_append, List.length_cons] at hlen
    have hu : uint16 ((P.length + 1 : Nat) : Int) = P.length + 1 :=
      uint16_of_lt _ (by omega)
    have hl : lev (P ++ [c]) [] = P.length + 1 := by simp
    have hc : cells c s1 (lev P []) (levRow P [] s1).tail (P.length + 1)
        = (levRow (P ++ [c]) [] s1).tail := by
      have := cells_lev c P (by omega) s1 [] (by simp only [List.length_nil]; omega)
      rwa [hl] at this
    have hrow : (P.length + 1) :: (levRow (P ++ [c]) [] s1).tail = levRow (P ++ [c]) [] s1 := by
      rw [levRow_eq_cons (P ++ [c]) [] s1, hl]
      rfl
    have hPR : P ++ c :: R = (P ++ [c]) ++ R := by simp
    have hlen' : ((P ++ [c]) ++ R).length ≤ 65534 := by
      simp only [List.length_append, List.length_cons, List.length_nil]
      omega
    have hi := ih (P ++ [c]) hlen'
    simp only [List.length_append, List.length_cons, List.length_nil, Nat.zero_add] at hi
    rw [levRow_eq_cons P [] s1]
    simp only [sweepRows, hu, hc, hrow]
    rw [hPR]
    split_ifs with hp
    · right
      obtain ⟨hp0, hp1⟩ := hp
      have key := levRow_append_lb s1 (uint16 maxDist + 1) R (P ++ [c]) (by
        intro v hv
        rw [← hrow] at hv
        have := minRow_le _ _ v hv
        omega)
      have hu2 : ((uint16 maxDist : Nat) : Int) = maxDist := by
        unfold uint16
        omega
      refine ⟨hp0, by omega, wrapInt_of_small _ (by omega) (by omega)⟩
    · exact hi

theorem cells_lt (c : Rune) : ∀ (s : List Rune) (diag : Nat) (rest : List Nat) (prev : Nat),
    diag < 65536 → (∀ v ∈ rest, v < 65536) → ∀ v ∈ cells c s diag rest prev, v < 65536 := by
  intro s
  induction s with
  | nil => intro diag rest prev _ _ v hv; simp [cells] at hv
  | cons a s ih =>
    intro diag rest prev hd hr v hv
    cases rest with
    | nil => simp [cells] at hv
    | cons up rest =>
      have hcell : cell c a diag prev up < 65536 := by
        unfold cell
        have := inc16_lt diag
        split_ifs <;> omega
      simp only [cells, List.mem_cons] at hv
      rcases hv with rfl | hv
      · exact hcell
      · exact ih up rest _ (hr up (List.mem_cons_self _ _))
          (fun w hw => hr w (List.mem_cons_of_mem _ hw)) v hv

theorem sweepRows_range (s1 : List Rune) (maxDist : Int) : ∀ (R : List Rune) (i : Nat)
    (x : List Nat), (∀ v ∈ x, v < 65536) →
      (0 ≤ sweepRows s1 maxDist R i x ∧ sweepRows s1 maxDist R i x < 65536) ∨
      (0 ≤ maxDist ∧ sweepRows s1 maxDist R i x = wrapInt (maxDist + 1)) := by
  intro R
  induction R with
  | nil =>
    intro i x hx
    left
    simp only [sweepRows]
    have : x.getD s1.length 0 < 65536 := by
      rw [List.getD_eq_getElem?_getD]
      rcases h : x[s1.length]? with _ | v
      · simp
      · simpa using hx v (List.getElem?_mem h)
    omega
  | cons c R ih =>
    intro i x hx
    cases x with
    | nil => left; simp [sweepRows]
    | cons diag rest =>
      simp only [sweepRows]
      split_ifs with hp
      · exact Or.inr ⟨hp.1, rfl⟩
      · apply ih
        intro v hv
        simp only [List.mem_cons] at hv
        rcases hv with rfl | hv
        · exact uint16_lt _
        · exact cells_lt c s1 diag rest _ (hx diag (List.mem_cons_self _ _))
            (fun w hw => hx w (List.mem_cons_of_mem _ hw)) v hv

/-! ## The whole function -/

theorem trimAndSweep_cases (s1 s2 : List Rune) (m : Int) (h : s1.length ≤ s2.length)
    (h2 : s2.length ≤ 65534) (hm : m ≤ 65535) :
    trimAndSweep s1 s2 m = some (lev s1 s2 : Int) ∨
    (0 ≤ m ∧ m < (lev s1 s2 : Int) ∧ trimAndSweep s1 s2 m = some (m + 1)) := by
  obtain ⟨p, t1, t2, s, e1, e2, e3, e4⟩ := trimAndSweep_spec s1 s2 m h
  have hl : lev s1 s2 = lev t1 t2 := by
    rw [e1, e2, lev_append_right, lev_append_left]
  have hl2 : t2.length ≤ 65534 := by
    rw [e2] at h2
    simp only [List.length_append] at h2
    omega
  rw [e4, hl]
  split_ifs with hp
  · right
    obtain ⟨hp0, hp1⟩ := hp
    have := (lev_ge_sub t1 t2).2
    refine ⟨hp0, ?_, by rw [wrapInt_of_small _ (by omega) (by omega)]⟩
    unfold absInt at hp1
    split_ifs at hp1 <;> omega
  · have := sweepRows_lev t1 m (by omega) hm t2 [] (by simpa using hl2)
    simp only [List.length_nil, Nat.zero_add, List.nil_append] at this
    rw [← initRow_eq_levRow t1 (by omega), lev_comm t2 t1] at this
    rcases this with g | ⟨g0, g1, g2⟩
    · exact Or.inl (by rw [g])
    · exact Or.inr ⟨g0, g1, by rw [g2]⟩

theorem computeDistance_cases (a b : List Rune) (thr : List Int) (ha : a.length ≤ 65534)
    (hb : b.length ≤ 65534) (hm : maxDist thr ≤ 65535) :
    ComputeDistance a b thr = some (lev a b : Int) ∨
    (0 ≤ maxDist thr ∧ maxDist thr < (lev a b : Int) ∧
      ComputeDistance a b thr = some (maxDist thr + 1)) := by
  unfold ComputeDistance
  by_cases h1 : a.length = 0
  · have e : a = [] := List.eq_nil_of_length_eq_zero h1
    subst e
    simp only [List.length_nil, if_true, lev_nil_left]
    split_ifs with hp
    · exact Or.inr ⟨hp.1, hp.2, by rw [wrapInt_of_small _ (by omega) (by omega)]⟩
    · exact Or.inl rfl
  · by_cases h2 : b.length = 0
    · have e : b = [] := List.eq_nil_of_length_eq_zero h2
      subst e
      simp only [h1, List.length_nil, if_true, if_false, lev_nil_right]
      split_ifs with hp
      · exact Or.inr ⟨hp.1, hp.2, by rw [wrapInt_of_small _ (by omega) (by omega)]⟩
      · exact Or.inl rfl
    · simp only [h1, h2, if_false]
      by_cases h3 : a = b
      · subst h3
        simp [lev_self]
      · simp only [h3, if_false]
        split_ifs with h4
        · rw [lev_comm a b]
          exact trimAndSweep_cases b a _ (by omega) ha hm
        · exact trimAndSweep_cases a b _ (by omega) hb hm

theorem computeDistance_total (a b : List Rune) (thr : List Int) :
    ∃ r, ComputeDistance a b thr = some r := by
  unfold ComputeDistance
  simp only []
  split_ifs
  · exact ⟨_, rfl⟩
  · exact ⟨_, rfl⟩
  · exact ⟨_, rfl⟩
  · exact ⟨_, rfl⟩
  · exact ⟨_, rfl⟩
  · obtain ⟨p, t1, t2, s, _, _, _, e⟩ := trimAndSweep_spec b a (maxDist thr) (by omega)
    exact ⟨_, e⟩
  · obtain ⟨p, t1, t2, s, _, _, _, e⟩ := trimAndSweep_spec a b (maxDist thr) (by omega)
    exact ⟨_, e⟩

theorem trimAndSweep_unbounded_le (s1 s2 : List Rune) (h : s1.length ≤ s2.length) :
    ∃ r : Int, trimAndSweep s1 s2 (-1) = some r ∧ 0 ≤ r ∧ r ≤ s2.length := by
  rcases Nat.lt_or_ge 65534 s2.length with hbig | hsmall
  · obtain ⟨p, t1, t2, s, _, _, _, e⟩ := trimAndSweep_spec s1 s2 (-1) h
    rw [if_neg (by omega)] at e
    refine ⟨_, e, ?_⟩
    rcases sweepRows_range t1 (-1) t2 1 (initRow t1.length) (initRow_lt _) with g | g
    · omega
    · omega
  · rcases trimAndSweep_cases s1 s2 (-1) h hsmall (by omega) with g | g
    · refine ⟨_, g, by omega, ?_⟩
      have := lev_le_max s1 s2
      omega
    · omega

theorem computeDistance_swap (a b : List Rune) (thr : List Int)
    (h : a.length ≠ b.length) : ComputeDistance a b thr = ComputeDistance b a thr := by
  unfold ComputeDistance
  by_cases h1 : a.length = 0
  · have h2 : ¬ b.length = 0 := by omega
    simp only [h1, h2, if_true, if_false]
  · by_cases h2 : b.length = 0
    · simp only [h1, h2, if_true, if_false]
    · have h3 : ¬ a = b := fun e => h (by rw [e])
      have h4 : ¬ b = a := fun e => h (by rw [e])
      simp only [h1, h2, h3, h4, if_false]
      rcases Nat.lt_or_gt_of_ne h with g | g
      · rw [if_neg (by omega), if_pos (by omega)]
      · rw [if_pos (by omega), if_neg (by omega)]

/-! ## The claims -/

/-- C1: for sequences of at most 65534 code points each, `ComputeDistance` called without
a threshold returns the Levenshtein distance of the standard recursive definition. -/
theorem C1_unbounded_is_lev (a b : List Rune) (ha : a.length ≤ 65534)
    (hb : b.length ≤ 65534) : ComputeDistance a b [] = some (lev a b : Int) := by
  rcases computeDistance_cases a b [] ha hb (by simp [maxDist]) with g | ⟨g, _, _⟩
  · exact g
  · simp [maxDist] at g

/-- Witness of C1 on "kitten" and "sitting", whose distance is 3. -/
theorem C1_unbounded_is_lev_witness :
    [107, 105, 116, 116, 101, 110].length ≤ 65534 ∧
    [115, 105, 116, 116, 105, 110, 103].length ≤ 65534 ∧
    lev [107, 105, 116, 116, 101, 110] [115, 105, 116, 116, 105, 110, 103] = 3 ∧
    ComputeDistance [107, 105, 116, 116, 101, 110] [115, 105, 116, 116, 105, 110, 103] []
      = some (lev [107, 105, 116, 116, 101, 110] [115, 105, 116, 116, 105, 110, 103] : Int) :=
  ⟨by decide, by decide, by simp [lev],
    C1_unbounded_is_lev [107, 105, 116, 116, 101, 110] [115, 105, 116, 116, 105, 110, 103]
      (by decide) (by decide)⟩

/-- C2, as stated, fails: on "abYZ" and "WXab" the distance is 4, above the threshold 2,
and the call with threshold 2 returns 4, not 2 + 1; no row of the sweep has a minimum
above 2, so the early exit never fires. -/
theorem C2_counterexample :
    (ComputeDistance [97, 98, 89, 90] [87, 88, 97, 98] [] = some 4 ∧
      ComputeDistance [97, 98, 89, 90] [87, 88, 97, 98] [2] = some 4) ∧
    ¬ (∀ (a b : List Rune) (t d : Int), 0 ≤ t → ComputeDistance a b [] = some d →
        (d ≤ t → ComputeDistance a b [t] = some d) ∧
        (t < d → ComputeDistance a b [t] = some (t + 1))) := by
  refine ⟨⟨by decide, by decide⟩, fun h => ?_⟩
  have h1 := (h [97, 98, 89, 90] [87, 88, 97, 98] 2 4 (by decide) (by decide)).2 (by decide)
  exact absurd h1 (by decide)

/-- C2, amended: for sequences of at most 65534 code points each and a threshold `t` with
`0 ≤ t ≤ 65535`, with `d` the result of the call without threshold, the call with
threshold `t` returns `d` when `d ≤ t`, and otherwise returns `t + 1` or `d`. -/
theorem C2_threshold_result (a b : List Rune) (t d : Int) (ha : a.length ≤ 65534)
    (hb : b.length ≤ 65534) (_h0 : 0 ≤ t) (h1 : t ≤ 65535)
    (hd : ComputeDistance a b [] = some d) :
    (d ≤ t → ComputeDistance a b [t] = some d) ∧
    (t < d → ComputeDistance a b [t] = some (t + 1) ∨ ComputeDistance a b [t] = some d) := by
  have e : d = (lev a b : Int) := by
    rcases computeDistance_cases a b [] ha hb (by simp [maxDist]) with g | ⟨g, _, _⟩
    · rw [g] at hd
      exact (Option.some.inj hd).symm
    · simp [maxDist] at g
  subst e
  rcases computeDistance_cases a b [t] ha hb (by simpa [maxDist] using h1) with
    g | ⟨_, g1, g2⟩
  · exact ⟨fun _ => g, fun _ => Or.inr g⟩
  · simp only [maxDist] at g1 g2
    exact ⟨fun h => by omega, fun _ => Or.inl g2⟩

/-- Witness of the amended C2 on "kitten" and "sitting" with threshold 5. -/
theorem C2_threshold_result_witness :
    ([107, 105, 116, 116, 101, 110].length ≤ 65534 ∧
      [115, 105, 116, 116, 105, 110, 103].length ≤ 65534 ∧ (0 : Int) ≤ 5 ∧ (5 : Int) ≤ 65535 ∧
      ComputeDistance [107, 105, 116, 116, 101, 110] [115, 105, 116, 116, 105, 110, 103] []
        = some 3) ∧
    (((3 : Int) ≤ 5 →
      ComputeDistance [107, 105, 116, 116, 101, 110] [115, 105, 116, 116, 105, 110, 103] [5]
        = some 3) ∧
    ((5 : Int) < 3 →
      ComputeDistance [107, 105, 116, 116, 101, 110] [115, 105, 116, 116, 105, 110, 103] [5]
        = some (5 + 1) ∨
      ComputeDistance [107, 105, 116, 116, 101, 110] [115, 105, 116, 116, 105, 110, 103] [5]
        = some 3)) :=
  ⟨⟨by decide, by decide, by decide, by decide, by decide⟩,
    C2_threshold_result [107, 105, 116, 116, 101, 110] [115, 105, 116, 116, 105, 110, 103] 5 3
      (by decide) (by decide) (by decide) (by decide) (by decide)⟩

/-- C3: for sequences of at most 65534 code points each and a threshold `t` with
`0 ≤ t ≤ 65535`, the call with threshold `t` returns the Levenshtein distance `d` or
`t + 1`; it returns `d` when `d ≤ t` and a value above `t` when `d > t`, so the result is
at most `t` exactly when `d` is. -/
theorem C3_threshold_sound (a b : List Rune) (t : Int) (ha : a.length ≤ 65534)
    (hb : b.length ≤ 65534) (_h0 : 0 ≤ t) (h1 : t ≤ 65535) :
    ∃ r : Int, ComputeDistance a b [t] = some r ∧
      (r = (lev a b : Int) ∨ r = t + 1) ∧
      ((lev a b : Int) ≤ t → r = (lev a b : Int)) ∧
      (t < (lev a b : Int) → t < r) ∧
      (r ≤ t ↔ (lev a b : Int) ≤ t) := by
  rcases computeDistance_cases a b [t] ha hb (by simpa [maxDist] using h1) with
    g | ⟨_, g1, g2⟩
  · exact ⟨_, g, Or.inl rfl, fun _ => rfl, fun h => h, Iff.rfl⟩
  · simp only [maxDist] at g1 g2
    exact ⟨_, g2, Or.inr rfl, fun h => by omega, fun _ => by omega,
      ⟨fun h => by omega, fun h => by omega⟩⟩

/-- Witness of C3 on "kitten" and "sitting" with threshold 2. -/
theorem C3_threshold_sound_witness :
    ([107, 105, 116, 116, 101, 110].length ≤ 65534 ∧
      [115, 105, 116, 116, 105, 110, 103].length ≤ 65534 ∧ (0 : Int) ≤ 2 ∧ (2 : Int) ≤ 65535) ∧
    ∃ r : Int,
      ComputeDistance [107, 105, 116, 116, 101, 110] [115, 105, 116, 116, 105, 110, 103] [2]
        = some r ∧
      (r = (lev [107, 105, 116, 116, 101, 110] [115, 105, 116, 116, 105, 110, 103] : Int) ∨
        r = 2 + 1) ∧
      ((lev [107, 105, 116, 116, 101, 110] [115, 105, 116, 116, 105, 110, 103] : Int) ≤ 2 →
        r = (lev [107, 105, 116, 116, 101, 110] [115, 105, 116, 116, 105, 110, 103] : Int)) ∧
      (2 < (lev [107, 105, 116, 116, 101, 110] [115, 105, 116, 116, 105, 110, 103] : Int) →
        2 < r) ∧
      (r ≤ 2 ↔
        (lev [107, 105, 116, 116, 101, 110] [115, 105, 116, 116, 105, 110, 103] : Int) ≤ 2) :=
  ⟨⟨by decide, by decide, by decide, by decide⟩,
    C3_threshold_sound [107, 105, 116, 116, 101, 110] [115, 105, 116, 116, 105, 110, 103] 2
      (by decide) (by decide) (by decide) (by decide)⟩

/-- C4, at the failing input: "a" and "b" are at distance 1, within the threshold 65536,
yet the call with threshold 65536 returns 65537, because `uint16(maxDist)` is 0 there. -/
theorem C4_large_threshold_truncated :
    lev [97] [98] = 1 ∧ uint16 65536 = 0 ∧ ComputeDistance [97] [98] [] = some 1 ∧
    ComputeDistance [97] [98] [65536] = some 65537 :=
  ⟨by simp [lev], by decide, by decide, by decide⟩

/-- C5, as stated, fails: with threshold 2, "abYZ" against "WXab" returns the full
distance 4 (no row minimum exceeds 2), while "WXab" against "abYZ" stops at the third
row and returns 2 + 1. -/
theorem C5_counterexample :
    (ComputeDistance [97, 98, 89, 90] [87, 88, 97, 98] [2] = some 4 ∧
      ComputeDistance [87, 88, 97, 98] [97, 98, 89, 90] [2] = some 3) ∧
    ¬ (∀ (a b : List Rune) (t : Int), 0 ≤ t →
        ComputeDistance a b [t] = ComputeDistance b a [t]) := by
  refine ⟨⟨by decide, by decide⟩, fun h => ?_⟩
  have h1 := h [97, 98, 89, 90] [87, 88, 97, 98] 2 (by decide)
  exact absurd h1 (by decide)

/-- C5, amended: for sequences of at most 65534 code points each and a threshold `t` with
`0 ≤ t ≤ 65535`, the two argument orders give the same result when the sequences differ
in length or their distance is at most `t + 1`; in every case one result is at most `t`
exactly when the other is, and then they are equal. -/
theorem C5_threshold_symmetry (a b : List Rune) (t : Int) (ha : a.length ≤ 65534)
    (hb : b.length ≤ 65534) (_h0 : 0 ≤ t) (h1 : t ≤ 65535) :
    (a.length ≠ b.length ∨ (lev a b : Int) ≤ t + 1 →
      ComputeDistance a b [t] = ComputeDistance b a [t]) ∧
    ∃ r r' : Int, ComputeDistance a b [t] = some r ∧ ComputeDistance b a [t] = some r' ∧
      (r ≤ t ↔ r' ≤ t) ∧ (r ≤ t → r = r') := by
  have hm : maxDist [t] ≤ 65535 := by simpa [maxDist] using h1
  have c1 := computeDistance_cases a b [t] ha hb hm
  have c2 := computeDistance_cases b a [t] hb ha hm
  rw [lev_comm b a] at c2
  simp only [maxDist] at c1 c2
  constructor
  · rintro (h | h)
    · exact computeDistance_swap a b [t] h
    · rcases c1 with g | ⟨_, g1, g2⟩ <;> rcases c2 with g' | ⟨_, g1', g2'⟩
      · rw [g, g']
      · rw [g, g2']
        congr 1
        omega
      · rw [g2, g']
        congr 1
        omega
      · rw [g2, g2']
  · rcases c1 with g | ⟨_, g1, g2⟩ <;> rcases c2 with g' | ⟨_, g1', g2'⟩
    · exact ⟨_, _, g, g', Iff.rfl, fun _ => rfl⟩
    · exact ⟨_, _, g, g2', ⟨fun h => by omega, fun h => by omega⟩, fun h => by omega⟩
    · exact ⟨_, _, g2, g', ⟨fun h => by omega, fun h => by omega⟩, fun h => by omega⟩
    · exact ⟨_, _, g2, g2', Iff.rfl, fun _ => rfl⟩

/-- Witness of the amended C5 on "kitten" and "sitting" with threshold 2: the lengths
differ and the distance is 3. -/
theorem C5_threshold_symmetry_witness :
    ([107, 105, 116, 116, 101, 110].length ≤ 65534 ∧
      [115, 105, 116, 116, 105, 110, 103].length ≤ 65534 ∧ (0 : Int) ≤ 2 ∧ (2 : Int) ≤ 65535 ∧
      [107, 105, 116, 116, 101, 110].length ≠ [115, 105, 116, 116, 105, 110, 103].length) ∧
    ((([107, 105, 116, 116, 101, 110] : List Rune).length ≠
        ([115, 105, 116, 116, 105, 110, 103] : List Rune).length ∨
      (lev [107, 105, 116, 116, 101, 110] [115, 105, 116, 116, 105, 110, 103] : Int) ≤ 2 + 1 →
      ComputeDistance [107, 105, 116, 116, 101, 110] [115, 105, 116, 116, 105, 110, 103] [2]
        = ComputeDistance [115, 105, 116, 116, 105, 110, 103] [107, 105, 116, 116, 101, 110] [2]) ∧
    ∃ r r' : Int,
      ComputeDistance [107, 105, 116, 116, 101, 110] [115, 105, 116, 116, 105, 110, 103] [2]
        = some r ∧
      ComputeDistance [115, 105, 116, 116, 105, 110, 103] [107, 105, 116, 116, 101, 110] [2]
        = some r' ∧
      (r ≤ 2 ↔ r' ≤ 2) ∧ (r ≤ 2 → r = r')) :=
  ⟨⟨by decide, by decide, by decide, by decide, by decide⟩,
    C5_threshold_symmetry [107, 105, 116, 116, 101, 110] [115, 105, 116, 116, 105, 110, 103] 2
      (by decide) (by decide) (by decide) (by decide)⟩

/-- C6: for sequences of at most 65534 code points each, `ComputeDistance` called without
a threshold gives the same result for both argument orders, equal lengths included. -/
theorem C6_unbounded_symmetry (a b : List Rune) (ha : a.length ≤ 65534)
    (hb : b.length ≤ 65534) : ComputeDistance a b [] = ComputeDistance b a [] := by
  have hm : maxDist [] ≤ 65535 := by simp [maxDist]
  rcases computeDistance_cases a b [] ha hb hm with g | ⟨g, _, _⟩
  · rcases computeDistance_cases b a [] hb ha hm with g' | ⟨g', _, _⟩
    · rw [g, g', lev_comm a b]
    · simp [maxDist] at g'
  · simp [maxDist] at g

/-- Witness of C6 on "abYZ" and "WXab", two sequences of equal length. -/
theorem C6_unbounded_symmetry_witness :
    ([97, 98, 89, 90].length ≤ 65534 ∧ [87, 88, 97, 98].length ≤ 65534) ∧
    ComputeDistance [97, 98, 89, 90] [87, 88, 97, 98] []
      = ComputeDistance [87, 88, 97, 98] [97, 98, 89, 90] [] :=
  ⟨⟨by decide, by decide⟩,
    C6_unbounded_symmetry [97, 98, 89, 90] [87, 88, 97, 98] (by decide) (by decide)⟩

/-- C7: for every sequence, the empty one included, and every threshold argument (absent,
negative, zero or positive), the distance of the sequence to itself is 0. -/
theorem C7_identity (a : List Rune) (thr : List Int) : ComputeDistance a a thr = some 0 := by
  unfold ComputeDistance
  by_cases h : a.length = 0
  · simp only [h, if_true]
    rw [if_neg (by rintro ⟨h1, h2⟩; simp only [Nat.cast_zero] at h2; omega)]
    rfl
  · simp only [h, if_false, if_true]

/-- C8: with `n` the number of code points of `b` (a Go length, below `2^63`) and `t` a Go
`int`, the distance between the empty sequence and `b`, in either order, is `n` without a
threshold or with a negative one, and `min(n, t + 1)` with a threshold `t ≥ 0`. -/
theorem C8_empty_input (b : List Rune) (t : Int)
    (hn : (b.length : Int) < 9223372036854775808) (ht : t < 9223372036854775808) :
    (ComputeDistance [] b [] = some (b.length : Int) ∧
      ComputeDistance b [] [] = some (b.length : Int)) ∧
    (t < 0 → ComputeDistance [] b [t] = some (b.length : Int) ∧
      ComputeDistance b [] [t] = some (b.length : Int)) ∧
    (0 ≤ t → ComputeDistance [] b [t] = some (min (b.length : Int) (t + 1)) ∧
      ComputeDistance b [] [t] = some (min (b.length : Int) (t + 1))) := by
  have key : ∀ m : Int, m < 9223372036854775808 →
      (if m ≥ 0 ∧ (b.length : Int) > m then some (wrapInt (m + 1)) else some (b.length : Int))
        = some (if 0 ≤ m then min (b.length : Int) (m + 1) else (b.length : Int)) := by
    intro m hm
    unfold wrapInt
    split_ifs <;> first | rfl | (congr 1; omega)
  have left : ∀ thr : List Int, maxDist thr < 9223372036854775808 →
      ComputeDistance [] b thr = some (if 0 ≤ maxDist thr then
        min (b.length : Int) (maxDist thr + 1) else (b.length : Int)) := by
    intro thr hm
    unfold ComputeDistance
    simp only [List.length_nil, if_true]
    exact key _ hm
  have right : ∀ thr : List Int, maxDist thr < 9223372036854775808 →
      ComputeDistance b [] thr = some (if 0 ≤ maxDist thr then
        min (b.length : Int) (maxDist thr + 1) else (b.length : Int)) := by
    intro thr hm
    by_cases h : b.length = 0
    · have e : b = [] := List.eq_nil_of_length_eq_zero h
      subst e
      exact left thr hm
    · unfold ComputeDistance
      simp only [h, List.length_nil, if_true, if_false]
      exact key _ hm
  have m0 : maxDist [] = -1 := rfl
  have m1 : maxDist [t] = t := rfl
  refine ⟨⟨?_, ?_⟩, fun h => ⟨?_, ?_⟩, fun h => ⟨?_, ?_⟩⟩
  · rw [left [] (by rw [m0]; omega), m0, if_neg (by omega)]
  · rw [right [] (by rw [m0]; omega), m0, if_neg (by omega)]
  · rw [left [t] (by rw [m1]; exact ht), m1, if_neg (by omega)]
  · rw [right [t] (by rw [m1]; exact ht), m1, if_neg (by omega)]
  · rw [left [t] (by rw [m1]; exact ht), m1, if_pos h]
  · rw [right [t] (by rw [m1]; exact ht), m1, if_pos h]

/-- Witness of C8 on "abc" with threshold 1: both calls return `min(3, 1 + 1) = 2`. -/
theorem C8_empty_input_witness :
    ((([97, 98, 99] : List Rune).length : Int) < 9223372036854775808 ∧
      (1 : Int) < 9223372036854775808 ∧
      ComputeDistance [] [97, 98, 99] [1] = some 2) ∧
    ((ComputeDistance [] [97, 98, 99] [] = some (([97, 98, 99] : List Rune).length : Int) ∧
      ComputeDistance [97, 98, 99] [] [] = some (([97, 98, 99] : List Rune).length : Int)) ∧
    ((1 : Int) < 0 →
      ComputeDistance [] [97, 98, 99] [1] = some (([97, 98, 99] : List Rune).length : Int) ∧
      ComputeDistance [97, 98, 99] [] [1] = some (([97, 98, 99] : List Rune).length : Int)) ∧
    ((0 : Int) ≤ 1 →
      ComputeDistance [] [97, 98, 99] [1]
        = some (min (([97, 98, 99] : List Rune).length : Int) (1 + 1)) ∧
      ComputeDistance [97, 98, 99] [] [1]
        = some (min (([97, 98, 99] : List Rune).length : Int) (1 + 1)))) :=
  ⟨⟨by decide, by decide, by decide⟩,
    C8_empty_input [97, 98, 99] 1 (by decide) (by decide)⟩

/-- C9: `ComputeDistance` returns an integer for every pair of sequences and every
threshold argument: no index, slice or assignment of the trims and of the sweep is out of
range; both trims succeed on the working sequences and leave the shorter one no longer
than the longer one. -/
theorem C9_total (a b : List Rune) (thr : List Int) :
    (∃ r, ComputeDistance a b thr = some r) ∧
    ∃ u1 u2 t1 t2,
      suffixLoop (if a.length > b.length then b else a) (if a.length > b.length then a else b)
        (if a.length > b.length then b else a).length 0 = some (u1, u2) ∧
      u1.length ≤ u2.length ∧
      prefixLoop u1 u2 u1.length 0 = some (t1, t2) ∧ t1.length ≤ t2.length := by
  refine ⟨computeDistance_total a b thr, ?_⟩
  have hle : (if a.length > b.length then b else a).length
      ≤ (if a.length > b.length then a else b).length := by
    split_ifs <;> omega
  obtain ⟨u1, u2, s, e1, _, _, e4⟩ := suffixLoop_spec _ _ _ [] rfl hle
  simp only [List.append_nil, List.length_nil] at e1
  obtain ⟨t1, t2, p, f1, _, _, f4⟩ := prefixLoop_spec u1.length [] u1 u2 rfl e4
  simp only [List.nil_append, List.length_nil] at f1
  exact ⟨u1, u2, t1, t2, e1, e4, f1, f4⟩

/-- C10: for every pair of sequences, of any length, `ComputeDistance` called without a
threshold returns a value that is at most the larger of the two numbers of code points,
hence at most their sum. -/
theorem C10_unbounded_upper (a b : List Rune) :
    ∃ r : Int, ComputeDistance a b [] = some r ∧
      r ≤ ((max a.length b.length : Nat) : Int) ∧ r ≤ ((a.length + b.length : Nat) : Int) := by
  have hmax : ∀ r : Int, r ≤ ((max a.length b.length : Nat) : Int) →
      r ≤ ((a.length + b.length : Nat) : Int) := by
    intro r h
    have : max a.length b.length ≤ a.length + b.length := by omega
    omega
  suffices h : ∃ r : Int, ComputeDistance a b [] = some r ∧
      r ≤ ((max a.length b.length : Nat) : Int) by
    obtain ⟨r, h1, h2⟩ := h
    exact ⟨r, h1, h2, hmax r h2⟩
  unfold ComputeDistance
  have m0 : maxDist [] = -1 := rfl
  simp only [m0]
  by_cases h1 : a.length = 0
  · refine ⟨(b.length : Int), ?_, by omega⟩
    rw [if_pos h1, if_neg (by omega)]
  · by_cases h2 : b.length = 0
    · refine ⟨(a.length : Int), ?_, by omega⟩
      rw [if_neg h1, if_pos h2, if_neg (by omega)]
    · by_cases h3 : a = b
      · refine ⟨0, ?_, by omega⟩
        rw [if_neg h1, if_neg h2, if_pos h3]
      · rw [if_neg h1, if_neg h2, if_neg h3]
        split_ifs with h4
        · obtain ⟨r, e, _, e2⟩ := trimAndSweep_unbounded_le b a (by omega)
          exact ⟨r, e, by omega⟩
        · obtain ⟨r, e, _, e2⟩ := trimAndSweep_unbounded_le a b (by omega)
          exact ⟨r, e, by omega⟩

/-! ## Negative thresholds, and the sign of the result -/

theorem outerLoop_neg (s1 s2 : List Rune) (m : Int) (hm : m < 0) (k : Nat) :
    ∀ (i : Nat) (x : List Nat), outerLoop s1 s2 m k i x = outerLoop s1 s2 (-1) k i x := by
  induction k with
  | zero => intro i x; simp only [outerLoop]
  | succ k ih =>
    intro i x
    have hm' : ¬ m ≥ 0 := by omega
    simp only [outerLoop, hm', false_and, if_false, ih, ge_iff_le, Left.nonneg_neg_iff,
      Int.reduceLE]

theorem trimAndSweep_neg (s1 s2 : List Rune) (m : Int) (hm : m < 0) :
    trimAndSweep s1 s2 m = trimAndSweep s1 s2 (-1) := by
  have hm' : ¬ m ≥ 0 := by omega
  have ho : ∀ (a b : List Rune) (k i : Nat) (x : List Nat),
      outerLoop a b m k i x = outerLoop a b (-1) k i x :=
    fun a b k i x => outerLoop_neg a b m hm k i x
  simp only [trimAndSweep, hm', false_and, if_false, ho, ge_iff_le,
    Left.nonneg_neg_iff, Int.reduceLE]

theorem computeDistance_neg (a b : List Rune) (thr : List Int) (hm : maxDist thr < 0) :
    ComputeDistance a b thr = ComputeDistance a b [] := by
  have hm' : ¬ maxDist thr ≥ 0 := by omega
  have m0 : maxDist [] = -1 := rfl
  simp only [ComputeDistance, hm', m0, false_and, if_false, trimAndSweep_neg _ _ _ hm,
    ge_iff_le, Left.nonneg_neg_iff, Int.reduceLE]

theorem sweepRows_nonneg (s1 : List Rune) (m : Int) (hm : m < 9223372036854775808) :
    ∀ (R : List Rune) (i : Nat) (x : List Nat), (∀ v ∈ x, v < 65536) →
      0 ≤ sweepRows s1 m R i x := by
  intro R
  induction R with
  | nil => intro i x _; simp only [sweepRows]; omega
  | cons c R ih =>
    intro i x hx
    cases x with
    | nil => simp [sweepRows]
    | cons diag rest =>
      simp only [sweepRows]
      split_ifs with hp
      · obtain ⟨hp0, hp1⟩ := hp
        have h1 := minRow_le (cells c s1 diag rest (uint16 i)) (uint16 i) (uint16 i)
          (List.mem_cons_self _ _)
        have h2 := uint16_lt (i : Int)
        have h3 : uint16 m < 65535 := by omega
        unfold uint16 at h3
        unfold wrapInt
        omega
      · apply ih
        intro v hv
        simp only [List.mem_cons] at hv
        rcases hv with rfl | hv
        · exact uint16_lt _
        · exact cells_lt c s1 diag rest _ (hx diag (List.mem_cons_self _ _))
            (fun w hw => hx w (List.mem_cons_of_mem _ hw)) v hv

theorem trimAndSweep_nonneg (s1 s2 : List Rune) (m : Int) (h : s1.length ≤ s2.length)
    (h2 : (s2.length : Int) < 9223372036854775808) (hm : m < 9223372036854775808) :
    ∃ r : Int, trimAndSweep s1 s2 m = some r ∧ 0 ≤ r := by
  obtain ⟨p, t1, t2, s, e1, e2, e3, e4⟩ := trimAndSweep_spec s1 s2 m h
  refine ⟨_, e4, ?_⟩
  have hl : t2.length ≤ s2.length := by
    rw [e2]
    simp only [List.length_append]
    omega
  split_ifs with hp
  · obtain ⟨hp0, hp1⟩ := hp
    unfold absInt at hp1
    unfold wrapInt
    split_ifs at hp1 <;> omega
  · exact sweepRows_nonneg t1 m hm t2 1 _ (initRow_lt _)

theorem trimAndSweep_length_exit (s1 s2 : List Rune) (t : Int) (h : s1.length ≤ s2.length)
    (h0 : 0 ≤ t) (h2 : (s2.length : Int) < 9223372036854775808)
    (hd : t < (s2.length : Int) - (s1.length : Int)) :
    trimAndSweep s1 s2 t = some (t + 1) := by
  obtain ⟨p, t1, t2, s, e1, e2, e3, e4⟩ := trimAndSweep_spec s1 s2 t h
  have l1 : s1.length = p.length + t1.length + s.length := by
    rw [e1]; simp only [List.length_append]
  have l2 : s2.length = p.length + t2.length + s.length := by
    rw [e2]; simp only [List.length_append]
  rw [e4, if_pos]
  · congr 1
    unfold wrapInt
    omega
  · refine ⟨h0, ?_⟩
    unfold absInt
    split_ifs <;> omega

/-! ## The working array between rows -/

theorem init_eq (n : Nat) :
    (makeX (n : Int)).bind (fun x => initLoop (x.length - 1) 1 x) = some (initRow n) := by
  rw [makeX_eq, Option.some_bind]
  have := initLoop_spec n 1 [0] (List.replicate n 0) rfl (by simp)
  simpa [List.replicate_succ, initRow] using this

theorem rowBody_spec (s1 s2 : List Rune) (P R : List Rune) (c : Rune) (hs : s2 = P ++ c :: R)
    (diag : Nat) (rest : List Nat) (h : rest.length = s1.length) :
    rowBody s1 s2 (P.length + 1) (diag :: rest)
      = some (uint16 ((P.length + 1 : Nat) : Int) ::
          cells c s1 diag rest (uint16 ((P.length + 1 : Nat) : Int)),
        minRow (uint16 ((P.length + 1 : Nat) : Int))
          (cells c s1 diag rest (uint16 ((P.length + 1 : Nat) : Int)))) := by
  have hc : index s2 (((P.length + 1 : Nat) : Int) - 1) = some c := by
    subst hs
    exact index_of_eq _ _ P.length _ (by push_cast; omega) (getElem?_append_mid _ _ _)
  obtain ⟨X, p, e1, e2⟩ := innerLoop_spec s1 s2 (P.length + 1) c hc s1.length [] s1 [] rest
    diag (uint16 ((P.length + 1 : Nat) : Int)) (uint16 ((P.length + 1 : Nat) : Int))
    rfl rfl rfl h
  simp only [List.length_nil, Nat.zero_add, List.nil_append] at e1 e2
  simp only [rowBody, e1, e2, Option.bind_eq_bind, Option.some_bind]

theorem outerLoop_succ (s1 s2 : List Rune) (m : Int) (k i : Nat) (x : List Nat) :
    outerLoop s1 s2 m (k + 1) i x
      = (rowBody s1 s2 i x).bind (fun r =>
          if m ≥ 0 ∧ r.2 > uint16 m then some (wrapInt (m + 1))
          else outerLoop s1 s2 m k (i + 1) r.1) := by
  simp only [outerLoop, rowBody, Option.bind_eq_bind]
  rcases innerLoop s1 s2 i s1.length 1 (x, uint16 (i : Int), uint16 (i : Int)) with
    _ | ⟨X, p, mr⟩
  · rfl
  · simp only [Option.some_bind]
    rcases assign X (s1.length : Int) p with _ | X2
    · rfl
    · rfl

theorem levRow_next (c : Rune) (P s1 : List Rune) (hP : P.length < 65534)
    (h1 : s1.length ≤ 65534) :
    uint16 ((P.length + 1 : Nat) : Int) ::
      cells c s1 (lev P []) (levRow P [] s1).tail (uint16 ((P.length + 1 : Nat) : Int))
      = levRow (P ++ [c]) [] s1 := by
  have hu : uint16 ((P.length + 1 : Nat) : Int) = P.length + 1 :=
    uint16_of_lt _ (by omega)
  have hl : lev (P ++ [c]) [] = P.length + 1 := by simp
  have hc := cells_lev c P hP s1 [] (by simp only [List.length_nil]; omega)
  rw [hl] at hc
  rw [hu, hc]
  conv_rhs => rw [levRow_eq_cons (P ++ [c]) [] s1, hl]

theorem levRow_index (P : List Rune) : ∀ (s Q : List Rune) (j : Nat), j ≤ s.length →
    (levRow P Q s)[j]? = some (lev P (Q ++ s.take j)) := by
  intro s
  induction s with
  | nil =>
    intro Q j hj
    simp only [List.length_nil, Nat.le_zero] at hj
    subst hj
    simp [levRow]
  | cons a s ih =>
    intro Q j hj
    cases j with
    | zero => simp [levRow]
    | succ j =>
      simp only [List.length_cons, Nat.add_le_add_iff_right] at hj
      have := ih (Q ++ [a]) j hj
      simpa [levRow] using this

theorem rowAt_spec (s1 s2 : List Rune) (h1 : s1.length ≤ 65534) (h2 : s2.length ≤ 65534) :
    ∀ i, i ≤ s2.length → rowAt s1 s2 i = some (levRow (s2.take i) [] s1) := by
  intro i
  induction i with
  | zero =>
    intro _
    have := init_eq s1.length
    simp only [rowAt, Option.bind_eq_bind, List.take_zero]
    rw [this, initRow_eq_levRow s1 (by omega)]
  | succ i ih =>
    intro hi
    have hlt : i < s2.length := by omega
    have hs : s2 = s2.take i ++ s2[i] :: s2.drop (i + 1) := by
      rw [← List.drop_eq_getElem_cons hlt, List.take_append_drop]
    have hPl : (s2.take i).length = i := by
      rw [List.length_take]; omega
    have hb := rowBody_spec s1 s2 (s2.take i) (s2.drop (i + 1)) s2[i] hs (lev (s2.take i) [])
      (levRow (s2.take i) [] s1).tail (by
        have := levRow_length (s2.take i) s1 []
        rw [List.length_tail, this]; rfl)
    rw [← levRow_eq_cons, levRow_next s2[i] (s2.take i) s1 (by omega) h1, hPl] at hb
    have ht : s2.take i ++ [s2[i]] = s2.take (i + 1) := by
      rw [List.take_succ, List.getElem?_eq_getElem hlt]
      rfl
    rw [ht] at hb
    simp only [rowAt, ih (by omega), hb, Option.bind_eq_bind, Option.some_bind]

theorem trimAndSweep_of_trims (s1 s2 u1 u2 t1 t2 : List Rune) (m : Int)
    (e1 : suffixLoop s1 s2 s1.length 0 = some (u1, u2))
    (f1 : prefixLoop u1 u2 u1.length 0 = some (t1, t2)) :
    trimAndSweep s1 s2 m = some
      (if m ≥ 0 ∧ absInt ((t1.length : Int) - (t2.length : Int)) > m then wrapInt (m + 1)
       else sweepRows t1 m t2 1 (initRow t1.length)) := by
  have hx : initLoop ((List.replicate (t1.length + 1) 0).length - 1) 1
      (List.replicate (t1.length + 1) 0) = some (initRow t1.length) := by
    have := initLoop_spec t1.length 1 [0] (List.replicate t1.length 0) rfl (by simp)
    simpa [List.replicate_succ, initRow] using this
  have ho := outerLoop_spec t1 t2 m t2.length [] t2 (initRow t1.length) rfl rfl
    (by simp only [initRow, List.length_cons, List.length_map, List.length_range'])
  simp only [List.length_nil, Nat.zero_add] at ho
  simp only [trimAndSweep, e1, f1, Option.bind_eq_bind, Option.some_bind, makeX_eq, hx, ho]
  split_ifs <;> rfl

/-! ## A sweep that ends without an exit has a small cell in its last row -/

theorem lev_eq_zero (xs ys : List Rune) (h : lev xs ys = 0) : xs = ys := by
  induction xs, ys using lev.induct with
  | case1 ys =>
    simp only [lev_nil_left] at h
    exact (List.eq_nil_of_length_eq_zero h).symm
  | case2 xs _ =>
    simp only [lev_nil_right] at h
    exact List.eq_nil_of_length_eq_zero h
  | case3 x xs ys ih =>
    simp only [lev_cons_cons, if_true] at h
    rw [ih h]
  | case4 x xs y ys hxy ih1 ih2 ih3 =>
    simp only [lev_cons_cons, if_neg hxy] at h
    omega

theorem minRow_mem (cs : List Nat) : ∀ (m : Nat), minRow m cs ∈ m :: cs := by
  induction cs with
  | nil => intro m; simp [minRow]
  | cons c cs ih =>
    intro m
    have step : minRow m (c :: cs) = minRow (if c < m then c else m) cs := by
      simp [minRow]
    rw [step]
    have h0 := ih (if c < m then c else m)
    simp only [List.mem_cons] at h0 ⊢
    rcases h0 with h0 | h0
    · rw [h0]
      split_ifs
      · exact Or.inr (Or.inl rfl)
      · exact Or.inl rfl
    · exact Or.inr (Or.inr h0)

theorem levRow_mem (P : List Rune) : ∀ (s Q : List Rune) (v : Nat), v ∈ levRow P Q s →
    ∃ j, j ≤ s.length ∧ v = lev P (Q ++ s.take j) := by
  intro s
  induction s with
  | nil =>
    intro Q v hv
    simp only [levRow, List.mem_singleton] at hv
    exact ⟨0, Nat.le_refl _, by simpa using hv⟩
  | cons a s ih =>
    intro Q v hv
    simp only [levRow, List.mem_cons] at hv
    rcases hv with hv | hv
    · exact ⟨0, Nat.zero_le _, by simpa using hv⟩
    · obtain ⟨j, hj, e⟩ := ih (Q ++ [a]) v hv
      refine ⟨j + 1, by simp only [List.length_cons]; omega, ?_⟩
      simpa using e

theorem sweepRows_noexit (s1 : List Rune) (m : Int) (h1 : s1.length ≤ 65534) (h0 : 0 ≤ m)
    (hm : m ≤ 65535) : ∀ (R : List Rune) (c : Rune) (P : List Rune),
      (P ++ c :: R).length ≤ 65534 →
      sweepRows s1 m (c :: R) (P.length + 1) (levRow P [] s1) = m + 1 ∨
      ∃ v ∈ levRow (P ++ c :: R) [] s1, (v : Int) ≤ m := by
  intro R
  induction R with
  | nil =>
    intro c P hlen
    simp only [List.length_append, List.length_cons, List.length_nil] at hlen
    rw [levRow_eq_cons P [] s1]
    simp only [sweepRows]
    have hmem := minRow_mem (cells c s1 (lev P []) (levRow P [] s1).tail
      (uint16 ((P.length + 1 : Nat) : Int))) (uint16 ((P.length + 1 : Nat) : Int))
    rw [levRow_next c P s1 (by omega) h1] at hmem
    split_ifs with hp
    · exact Or.inl (wrapInt_of_small _ (by omega) (by omega))
    · right
      refine ⟨_, hmem, ?_⟩
      have hu2 : ((uint16 m : Nat) : Int) = m := by
        unfold uint16
        omega
      have : ¬ minRow (uint16 ((P.length + 1 : Nat) : Int))
          (cells c s1 (lev P []) (levRow P [] s1).tail (uint16 ((P.length + 1 : Nat) : Int)))
          > uint16 m := fun h => hp ⟨h0, h⟩
      omega
  | cons c2 R ih =>
    intro c P hlen
    have hPR : P ++ c :: c2 :: R = (P ++ [c]) ++ c2 :: R := by simp
    have hlen2 : ((P ++ [c]) ++ c2 :: R).length ≤ 65534 := by rw [← hPR]; exact hlen
    simp only [List.length_append, List.length_cons, List.length_nil] at hlen
    have hi := ih c2 (P ++ [c]) hlen2
    simp only [List.length_append, List.length_cons, List.length_nil, Nat.zero_add] at hi
    rw [levRow_eq_cons P [] s1]
    rw [sweepRows, levRow_next c P s1 (by omega) h1, hPR]
    split_ifs with hp
    · exact Or.inl (wrapInt_of_small _ (by omega) (by omega))
    · exact hi

theorem trimAndSweep_zero (s1 s2 : List Rune) (h : s1.length ≤ s2.length)
    (h2 : s2.length ≤ 65534) (hne : s1 ≠ s2) : trimAndSweep s1 s2 0 = some 1 := by
  obtain ⟨p, t1, t2, s, e1, e2, e3, e4⟩ := trimAndSweep_spec s1 s2 0 h
  have hne2 : t1 ≠ t2 := by
    intro e
    apply hne
    rw [e1, e2, e]
  have hl2 : t2.length ≤ 65534 := by
    rw [e2] at h2
    simp only [List.length_append] at h2
    omega
  rw [e4]
  congr 1
  split_ifs with hp
  · exact wrapInt_of_small _ (by omega) (by omega)
  · have hlen : t1.length = t2.length := by
      have : ¬ absInt ((t1.length : Int) - (t2.length : Int)) > 0 := fun h => hp ⟨le_refl _, h⟩
      unfold absInt at this
      split_ifs at this <;> omega
    cases t2 with
    | nil =>
      exfalso
      apply hne2
      exact List.eq_nil_of_length_eq_zero (by simpa using hlen)
    | cons c R =>
      rcases sweepRows_noexit t1 0 (by omega) (le_refl _) (by omega) R c []
        (by simpa using hl2) with g | ⟨v, hv, hv0⟩
      · simpa [initRow_eq_levRow t1 (by omega)] using g
      · exfalso
        obtain ⟨j, hj, e⟩ := levRow_mem _ _ _ _ hv
        simp only [List.nil_append] at e
        have hz : lev (c :: R) (t1.take j) = 0 := by omega
        have e5 := lev_eq_zero _ _ hz
        have hl5 : (t1.take j).length = t1.length := by rw [← e5]; exact hlen.symm
        have : t1.take j = t1 := by
          apply List.take_of_length_le
          rw [List.length_take] at hl5
          omega
        apply hne2
        rw [← this, ← e5]

/-! ## One rune against 65535 copies of another: the cells wrap around -/

theorem sweepRows_single_long (k : Nat) : ∀ (i : Nat), 1 ≤ i → i + k = 65534 →
    sweepRows [97] (-1) (List.replicate (k + 1) 98) (i + 1) [i, i] = 0 := by
  induction k with
  | zero =>
    intro i _ h2
    have e : i = 65534 := by omega
    subst e
    decide
  | succ k ih =>
    intro i h1 h2
    have hu : uint16 ((i + 1 : Nat) : Int) = i + 1 := uint16_of_lt _ (by omega)
    have hc : cell 98 97 i (i + 1) i = i + 1 := by
      unfold cell inc16
      rw [if_pos (by decide), Nat.mod_eq_of_lt (by omega), Nat.mod_eq_of_lt (by omega)]
      omega
    rw [List.replicate_succ, sweepRows, if_neg (by omega), hu]
    simp only [cells, hc]
    exact ih (i + 1) (by omega) (by omega)

theorem computeDistance_single_long :
    ComputeDistance [97] (List.replicate 65535 98) [] = some 0 := by
  have hlen : (List.replicate 65535 98 : List Rune).length = 65535 := List.length_replicate _ _
  have hne : ¬ ([97] : List Rune) = List.replicate 65535 98 := by
    intro h
    have := congrArg List.length h
    rw [hlen] at this
    simp at this
  have i1 : index ([97] : List Rune) ((([97] : List Rune).length : Int) - 1 - ((0 : Nat) : Int))
      = some 97 := by decide
  have i2 : index (List.replicate 65535 98 : List Rune)
      (((List.replicate 65535 98 : List Rune).length : Int) - 1 - ((0 : Nat) : Int))
      = some 98 := by
    apply index_of_eq _ _ 65534
    · rw [hlen]; norm_num
    · rw [List.getElem?_replicate, if_pos (by norm_num)]
  have j1 : slice ([97] : List Rune) 0 ((([97] : List Rune).length : Int) - ((0 : Nat) : Int))
      = some [97] := by decide
  have j2 : slice (List.replicate 65535 98 : List Rune) 0
      (((List.replicate 65535 98 : List Rune).length : Int) - ((0 : Nat) : Int))
      = some (List.replicate 65535 98) := by
    have := slice_of_eq (List.replicate 65535 98 : List Rune) 0
      (((List.replicate 65535 98 : List Rune).length : Int) - ((0 : Nat) : Int)) 0
      (List.replicate 65535 98 : List Rune).length (by omega) (by omega) (Nat.zero_le _)
      (Nat.le_refl _)
    rw [this, List.take_length, List.drop_zero]
  have hs : suffixLoop [97] (List.replicate 65535 98) ([97] : List Rune).length 0
      = some ([97], List.replicate 65535 98) := by
    have h1 : ([97] : List Rune).length = 0 + 1 := rfl
    rw [h1, suffixLoop]
    simp only [i1, i2, j1, j2, Option.bind_eq_bind, Option.some_bind, ne_eq]
    rw [if_pos (by decide)]
  have i3 : index ([97] : List Rune) ((0 : Nat) : Int) = some 97 := by decide
  have i4 : index (List.replicate 65535 98 : List Rune) ((0 : Nat) : Int) = some 98 := by
    apply index_of_eq _ _ 0 _ rfl
    rw [List.getElem?_replicate, if_pos (by norm_num)]
  have j3 : slice ([97] : List Rune) ((0 : Nat) : Int) ((([97] : List Rune).length : Nat) : Int)
      = some [97] := by decide
  have j4 : slice (List.replicate 65535 98 : List Rune) ((0 : Nat) : Int)
      (((List.replicate 65535 98 : List Rune).length : Nat) : Int)
      = some (List.replicate 65535 98) := by
    rw [slice_of_eq _ _ _ 0 (List.replicate 65535 98 : List Rune).length rfl rfl
      (Nat.zero_le _) (Nat.le_refl _), List.take_length, List.drop_zero]
  have hp : prefixLoop [97] (List.replicate 65535 98) ([97] : List Rune).length 0
      = some ([97], List.replicate 65535 98) := by
    have h1 : ([97] : List Rune).length = 0 + 1 := rfl
    rw [h1, prefixLoop]
    simp only [i3, i4, j3, j4, Option.bind_eq_bind, Option.some_bind, ne_eq]
    rw [if_pos (by decide)]
  have ht := trimAndSweep_of_trims [97] (List.replicate 65535 98) _ _ _ _ (-1) hs hp
  rw [if_neg (by omega)] at ht
  have hrow : sweepRows [97] (-1) (List.replicate 65535 98) 1 (initRow ([97] : List Rune).length)
      = 0 := by
    have e0 : initRow ([97] : List Rune).length = [0, 1] := by decide
    have e1 : (List.replicate 65535 98 : List Rune) = 98 :: List.replicate (65533 + 1) 98 := rfl
    rw [e0, e1, sweepRows, if_neg (by omega)]
    have e2 : uint16 ((1 : Nat) : Int) :: cells 98 [97] 0 [1] (uint16 ((1 : Nat) : Int))
        = [1, 1] := by decide
    rw [e2]
    exact sweepRows_single_long 65533 1 (by omega) (by omega)
  rw [hrow] at ht
  unfold ComputeDistance
  rw [if_neg (by decide), if_neg (by rw [hlen]; decide), if_neg hne,
    if_neg (by rw [hlen]; decide)]
  exact ht

theorem computeDistance_self (a : List Rune) (thr : List Int) :
    ComputeDistance a a thr = some 0 := by
  unfold ComputeDistance
  by_cases h : a.length = 0
  · simp only [h, if_true]
    rw [if_neg (by rintro ⟨h1, h2⟩; simp only [Nat.cast_zero] at h2; omega)]
    rfl
  · simp only [h, if_false, if_true]

/-! ## The claims, continued -/

/-- C11, at the failing input: for "a" against 65535 copies of "b" the lengths differ by
65534 and the Levenshtein distance is at least 65534, yet the call without threshold
returns 0: at row 65535 the `uint16` sum `prev + 1` wraps around to 0 (line 118). -/
theorem C11_long_input_wraps :
    ComputeDistance [97] (List.replicate 65535 98) [] = some 0 ∧
    absInt ((([97] : List Rune).length : Int)
      - ((List.replicate 65535 98 : List Rune).length : Int)) = 65534 ∧
    65534 ≤ lev [97] (List.replicate 65535 98) := by
  have hl : (List.replicate 65535 98 : List Rune).length = 65535 := List.length_replicate _ _
  have h := (lev_ge_sub [97] (List.replicate 65535 98)).2
  rw [hl]
  rw [hl] at h
  generalize lev [97] (List.replicate 65535 98) = d at h ⊢
  have h1 : ([97] : List Rune).length = 1 := rfl
  rw [h1] at h ⊢
  refine ⟨computeDistance_single_long, ?_, by omega⟩
  unfold absInt
  omega

/-- Within the range of the `uint16` cells the lower bound holds: for sequences of at most
65534 code points each, `ComputeDistance` called without a threshold returns at least the
difference of the two lengths. -/
theorem computeDistance_lower_of_bounded (a b : List Rune) (ha : a.length ≤ 65534)
    (hb : b.length ≤ 65534) :
    ∃ r : Int, ComputeDistance a b [] = some r ∧
      absInt ((a.length : Int) - (b.length : Int)) ≤ r := by
  rcases computeDistance_cases a b [] ha hb (by simp [maxDist]) with g | ⟨g, _, _⟩
  · refine ⟨_, g, ?_⟩
    have := lev_ge_sub a b
    unfold absInt
    split_ifs <;> omega
  · simp [maxDist] at g

/-- C12: for sequences whose lengths are Go lengths (below `2^63`) and every threshold
argument (absent, or any Go `int` up to the largest, `2^63 - 1`), `ComputeDistance`
returns a value that is at least 0: `maxDist + 1` is never returned where it would wrap. -/
theorem C12_nonneg (a b : List Rune) (thr : List Int)
    (ha : (a.length : Int) < 9223372036854775808)
    (hb : (b.length : Int) < 9223372036854775808)
    (hm : maxDist thr < 9223372036854775808) :
    ∃ r : Int, ComputeDistance a b thr = some r ∧ 0 ≤ r := by
  have key : ∀ n : Nat, (n : Int) < 9223372036854775808 →
      ∃ r : Int, (if maxDist thr ≥ 0 ∧ (n : Int) > maxDist thr then
        some (wrapInt (maxDist thr + 1)) else some (n : Int)) = some r ∧ 0 ≤ r := by
    intro n hn
    split_ifs with hp
    · refine ⟨_, rfl, ?_⟩
      unfold wrapInt
      omega
    · exact ⟨_, rfl, by omega⟩
  unfold ComputeDistance
  by_cases h1 : a.length = 0
  · simp only [h1, if_true]
    exact key b.length hb
  · by_cases h2 : b.length = 0
    · simp only [h1, h2, if_true, if_false]
      exact key a.length ha
    · by_cases h3 : a = b
      · exact ⟨0, by simp only [h1, h2, h3, if_true, if_false], le_refl _⟩
      · simp only [h1, h2, h3, if_false]
        split_ifs with h4
        · exact trimAndSweep_nonneg b a _ (by omega) ha hm
        · exact trimAndSweep_nonneg a b _ (by omega) hb hm

/-- Witness of C12 on "a" and "b" with the largest Go `int` as threshold. -/
theorem C12_nonneg_witness :
    ((([97] : List Rune).length : Int) < 9223372036854775808 ∧
      (([98] : List Rune).length : Int) < 9223372036854775808 ∧
      maxDist [9223372036854775807] < 9223372036854775808 ∧
      ComputeDistance [97] [98] [9223372036854775807] = some 1) ∧
    ∃ r : Int, ComputeDistance [97] [98] [9223372036854775807] = some r ∧ 0 ≤ r :=
  ⟨⟨by decide, by decide, by decide, by decide⟩,
    C12_nonneg [97] [98] [9223372036854775807] (by decide) (by decide) (by decide)⟩

/-- C13: for every pair of sequences and every threshold `t < 0`, the call with
threshold `t` returns what the call without a threshold returns. -/
theorem C13_negative_is_unbounded (a b : List Rune) (t : Int) (ht : t < 0) :
    ComputeDistance a b [t] = ComputeDistance a b [] :=
  computeDistance_neg a b [t] ht

/-- Witness of C13 on "kitten" and "sitting" with threshold -5. -/
theorem C13_negative_is_unbounded_witness :
    ((-5 : Int) < 0 ∧ ComputeDistance [107, 105, 116, 116, 101, 110] [115, 105, 116, 116, 105, 110, 103] [-5] = some 3) ∧
    ComputeDistance [107, 105, 116, 116, 101, 110] [115, 105, 116, 116, 105, 110, 103] [-5] = ComputeDistance [107, 105, 116, 116, 101, 110] [115, 105, 116, 116, 105, 110, 103] [] :=
  ⟨⟨by decide, by decide⟩, C13_negative_is_unbounded [107, 105, 116, 116, 101, 110] [115, 105, 116, 116, 105, 110, 103] (-5) (by decide)⟩

/-- C14: for sequences of at most 65534 code points each, the call with threshold 0
returns 0 when the two sequences are the same and 1 otherwise. -/
theorem C14_zero_threshold (a b : List Rune) (ha : a.length ≤ 65534)
    (hb : b.length ≤ 65534) :
    ComputeDistance a b [0] = some (if a = b then 0 else 1) := by
  by_cases h3 : a = b
  · subst h3
    rw [if_pos rfl]
    exact computeDistance_self a [0]
  · rw [if_neg h3]
    have m0 : maxDist [0] = 0 := rfl
    have w1 : wrapInt (0 + 1) = 1 := by decide
    unfold ComputeDistance
    simp only [m0, w1]
    by_cases h1 : a.length = 0
    · have hb0 : b.length ≠ 0 := by
        intro h2
        apply h3
        rw [List.eq_nil_of_length_eq_zero h1, List.eq_nil_of_length_eq_zero h2]
      rw [if_pos h1, if_pos ⟨le_refl _, by omega⟩]
    · by_cases h2 : b.length = 0
      · rw [if_neg h1, if_pos h2, if_pos ⟨le_refl _, by omega⟩]
      · rw [if_neg h1, if_neg h2, if_neg h3]
        split_ifs with h4
        · exact trimAndSweep_zero b a (by omega) ha (fun e => h3 e.symm)
        · exact trimAndSweep_zero a b (by omega) hb h3

/-- Witness of C14 on "kitten" and "sitting", which differ. -/
theorem C14_zero_threshold_witness :
    (([107, 105, 116, 116, 101, 110] : List Rune).length ≤ 65534 ∧ ([115, 105, 116, 116, 105, 110, 103] : List Rune).length ≤ 65534 ∧ ComputeDistance [107, 105, 116, 116, 101, 110] [115, 105, 116, 116, 105, 110, 103] [0] = some 1) ∧
    ComputeDistance [107, 105, 116, 116, 101, 110] [115, 105, 116, 116, 105, 110, 103] [0] = some (if ([107, 105, 116, 116, 101, 110] : List Rune) = [115, 105, 116, 116, 105, 110, 103] then 0 else 1) :=
  ⟨⟨by decide, by decide, by decide⟩, C14_zero_threshold [107, 105, 116, 116, 101, 110] [115, 105, 116, 116, 105, 110, 103] (by decide) (by decide)⟩

/-- C15: when `p ++ a ++ s` and `p ++ b ++ s` have at most 65534 code points each, the
call without threshold returns the same on them as on `a` and `b`: a shared prefix and a
shared suffix contribute nothing. -/
theorem C15_trim_invariant (p s a b : List Rune) (h1 : (p ++ a ++ s).length ≤ 65534)
    (h2 : (p ++ b ++ s).length ≤ 65534) :
    ComputeDistance (p ++ a ++ s) (p ++ b ++ s) [] = ComputeDistance a b [] := by
  have hm : maxDist [] ≤ 65535 := by simp [maxDist]
  have ha : a.length ≤ 65534 := by
    simp only [List.length_append] at h1; omega
  have hb : b.length ≤ 65534 := by
    simp only [List.length_append] at h2; omega
  rcases computeDistance_cases (p ++ a ++ s) (p ++ b ++ s) [] h1 h2 hm with g | ⟨g, _, _⟩
  · rcases computeDistance_cases a b [] ha hb hm with g' | ⟨g', _, _⟩
    · rw [g, g', List.append_assoc, List.append_assoc, lev_append_left, lev_append_right]
    · simp [maxDist] at g'
  · simp [maxDist] at g

/-- Witness of C15 on "abcXYZd" and "abcWXYd": prefix "abc", suffix "d". -/
theorem C15_trim_invariant_witness :
    ((([97, 98, 99] : List Rune) ++ [88, 89, 90] ++ [100]).length ≤ 65534 ∧
      (([97, 98, 99] : List Rune) ++ [87, 88, 89] ++ [100]).length ≤ 65534 ∧
      ComputeDistance [88, 89, 90] [87, 88, 89] [] = some 2) ∧
    ComputeDistance ([97, 98, 99] ++ [88, 89, 90] ++ [100]) ([97, 98, 99] ++ [87, 88, 89] ++ [100])
      [] = ComputeDistance [88, 89, 90] [87, 88, 89] [] :=
  ⟨⟨by decide, by decide, by decide⟩,
    C15_trim_invariant [97, 98, 99] [100] [88, 89, 90] [87, 88, 89] (by decide) (by decide)⟩

/-- C16: for a sequence `a` of at most 65533 code points and any code point `c`, the
distance between `a` and `a` with `c` appended is 1, in both orders, without threshold. -/
theorem C16_append_one (a : List Rune) (c : Rune) (h : a.length ≤ 65533) :
    ComputeDistance a (a ++ [c]) [] = some 1 ∧ ComputeDistance (a ++ [c]) a [] = some 1 := by
  have hm : maxDist [] ≤ 65535 := by simp [maxDist]
  have h2 : (a ++ [c]).length ≤ 65534 := by
    simp only [List.length_append, List.length_cons, List.length_nil]; omega
  have l1 : lev a (a ++ [c]) = 1 := by
    have := lev_append_left a [] [c]
    simpa using this
  have l2 : lev (a ++ [c]) a = 1 := by rw [lev_comm, l1]
  constructor
  · rcases computeDistance_cases a (a ++ [c]) [] (by omega) h2 hm with g | ⟨g, _, _⟩
    · rw [g, l1]; rfl
    · simp [maxDist] at g
  · rcases computeDistance_cases (a ++ [c]) a [] h2 (by omega) hm with g | ⟨g, _, _⟩
    · rw [g, l2]; rfl
    · simp [maxDist] at g

/-- Witness of C16 on "café" and the code point of "s". -/
theorem C16_append_one_witness :
    ([99, 97, 102, 233] : List Rune).length ≤ 65533 ∧
    (ComputeDistance [99, 97, 102, 233] ([99, 97, 102, 233] ++ [115]) [] = some 1 ∧
      ComputeDistance ([99, 97, 102, 233] ++ [115]) [99, 97, 102, 233] [] = some 1) :=
  ⟨by decide, C16_append_one [99, 97, 102, 233] 115 (by decide)⟩

/-- C17: for sequences whose lengths are Go lengths (below `2^63`) and a threshold
`t ≥ 0` smaller than the difference of the two lengths, the call with threshold `t`
returns `t + 1`, on the empty-input path as well as at the length check after the trims. -/
theorem C17_length_exit (a b : List Rune) (t : Int) (h0 : 0 ≤ t)
    (ha : (a.length : Int) < 9223372036854775808)
    (hb : (b.length : Int) < 9223372036854775808)
    (hd : t < absInt ((a.length : Int) - (b.length : Int))) :
    ComputeDistance a b [t] = some (t + 1) := by
  unfold absInt at hd
  have m0 : maxDist [t] = t := rfl
  have w1 : wrapInt (t + 1) = t + 1 := by
    unfold wrapInt
    split_ifs at hd <;> omega
  unfold ComputeDistance
  simp only [m0, w1]
  by_cases h1 : a.length = 0
  · rw [if_pos h1, if_pos ⟨h0, by split_ifs at hd <;> omega⟩]
  · by_cases h2 : b.length = 0
    · rw [if_neg h1, if_pos h2, if_pos ⟨h0, by split_ifs at hd <;> omega⟩]
    · have h3 : ¬ a = b := by
        intro e
        rw [e] at hd
        split_ifs at hd <;> omega
      rw [if_neg h1, if_neg h2, if_neg h3]
      split_ifs with h4
      · exact trimAndSweep_length_exit b a t (by omega) h0 ha (by split_ifs at hd <;> omega)
      · exact trimAndSweep_length_exit a b t (by omega) h0 hb (by split_ifs at hd <;> omega)

/-- Witness of C17 on "ab" and "abcde" with threshold 2. -/
theorem C17_length_exit_witness :
    ((0 : Int) ≤ 2 ∧ (([97, 98] : List Rune).length : Int) < 9223372036854775808 ∧
      (([97, 98, 99, 100, 101] : List Rune).length : Int) < 9223372036854775808 ∧
      2 < absInt ((([97, 98] : List Rune).length : Int)
        - (([97, 98, 99, 100, 101] : List Rune).length : Int))) ∧
    ComputeDistance [97, 98] [97, 98, 99, 100, 101] [2] = some (2 + 1) :=
  ⟨⟨by decide, by decide, by decide, by decide⟩,
    C17_length_exit [97, 98] [97, 98, 99, 100, 101] 2 (by decide) (by decide) (by decide)
      (by decide)⟩

/-- C18, at the failing inputs: "ab" is entirely a suffix of "xab" and entirely a prefix
of "abx", yet neither trimming loop truncates anything, because each truncates only where
it finds a mismatch; the distance returned is still 1. -/
theorem C18_whole_match_not_trimmed :
    (commonSuffixLen [97, 98] [120, 97, 98] = 2 ∧
      suffixLoop [97, 98] [120, 97, 98] 2 0 = some ([97, 98], [120, 97, 98]) ∧
      prefixLoop [97, 98] [120, 97, 98] 2 0 = some ([97, 98], [120, 97, 98]) ∧
      ComputeDistance [97, 98] [120, 97, 98] [] = some 1) ∧
    (commonSuffixLen [97, 98] [97, 98, 120] = 0 ∧
      suffixLoop [97, 98] [97, 98, 120] 2 0 = some ([97, 98], [97, 98, 120]) ∧
      commonPrefixLen [97, 98] [97, 98, 120] = 2 ∧
      prefixLoop [97, 98] [97, 98, 120] 2 0 = some ([97, 98], [97, 98, 120]) ∧
      ComputeDistance [97, 98] [97, 98, 120] [] = some 1) := by
  decide

/-- C19: for working sequences with `len(s1) ≤ len(s2) ≤ 65534`, at the start of row `i`
(`1 ≤ i ≤ len(s2)`, no early exit taken) every cell `x[j]` is the distance between the
first `i - 1` code points of `s2` and the first `j` code points of `s1`, and the sweep
run on from there returns the distance between `s2` and `s1`; after the last row
`x[lenS1]` is that distance. -/
theorem C19_row_invariant (s1 s2 : List Rune) (h1 : s1.length ≤ s2.length)
    (h2 : s2.length ≤ 65534) :
    (∀ i, 1 ≤ i → i ≤ s2.length → ∃ x, rowAt s1 s2 (i - 1) = some x ∧
      (∀ j, j ≤ s1.length →
        index x (j : Int) = some (lev (s2.take (i - 1)) (s1.take j))) ∧
      outerLoop s1 s2 (-1) (s2.length - (i - 1)) i x = some (lev s2 s1 : Int)) ∧
    ∃ x, rowAt s1 s2 s2.length = some x ∧ index x (s1.length : Int) = some (lev s2 s1) := by
  have hs1 : s1.length ≤ 65534 := by omega
  have hidx : ∀ (n j : Nat), j ≤ s1.length →
      index (levRow (s2.take n) [] s1) (j : Int) = some (lev (s2.take n) (s1.take j)) := by
    intro n j hj
    apply index_of_eq _ _ j _ rfl
    simpa using levRow_index (s2.take n) s1 [] j hj
  constructor
  · intro i hi1 hi2
    obtain ⟨n, rfl⟩ : ∃ n, i = n + 1 := ⟨i - 1, by omega⟩
    simp only [Nat.add_sub_cancel]
    refine ⟨_, rowAt_spec s1 s2 hs1 h2 n (by omega), hidx n, ?_⟩
    have hl : (s2.take n).length = n := by
      rw [List.length_take]; omega
    have ho := outerLoop_spec s1 s2 (-1) (s2.length - n) (s2.take n) (s2.drop n) _
      (List.take_append_drop n s2).symm (by rw [List.length_drop])
      (levRow_length (s2.take n) s1 [])
    rw [hl] at ho
    rw [ho]
    have hsw := sweepRows_lev s1 (-1) hs1 (by omega) (s2.drop n) (s2.take n)
      (by rw [List.take_append_drop]; exact h2)
    rw [hl, List.take_append_drop] at hsw
    rcases hsw with g | ⟨g, _, _⟩
    · rw [g]
    · omega
  · refine ⟨_, rowAt_spec s1 s2 hs1 h2 s2.length (Nat.le_refl _), ?_⟩
    have := hidx s2.length s1.length (Nat.le_refl _)
    simp only [List.take_length] at this ⊢
    exact this

/-- Witness of C19 on the working sequences "kitten" and "sitting". -/
theorem C19_row_invariant_witness :
    (([107, 105, 116, 116, 101, 110] : List Rune).length ≤ ([115, 105, 116, 116, 105, 110, 103] : List Rune).length ∧ ([115, 105, 116, 116, 105, 110, 103] : List Rune).length ≤ 65534) ∧
    ((∀ i, 1 ≤ i → i ≤ ([115, 105, 116, 116, 105, 110, 103] : List Rune).length → ∃ x, rowAt [107, 105, 116, 116, 101, 110] [115, 105, 116, 116, 105, 110, 103] (i - 1) = some x ∧
      (∀ j, j ≤ ([107, 105, 116, 116, 101, 110] : List Rune).length →
        index x (j : Int) = some (lev (List.take (i - 1) [115, 105, 116, 116, 105, 110, 103]) (List.take j [107, 105, 116, 116, 101, 110]))) ∧
      outerLoop [107, 105, 116, 116, 101, 110] [115, 105, 116, 116, 105, 110, 103] (-1) (([115, 105, 116, 116, 105, 110, 103] : List Rune).length - (i - 1)) i x = some (lev [115, 105, 116, 116, 105, 110, 103] [107, 105, 116, 116, 101, 110] : Int)) ∧
    ∃ x, rowAt [107, 105, 116, 116, 101, 110] [115, 105, 116, 116, 105, 110, 103] ([115, 105, 116, 116, 105, 110, 103] : List Rune).length = some x ∧
      index x (([107, 105, 116, 116, 101, 110] : List Rune).length : Int) = some (lev [115, 105, 116, 116, 105, 110, 103] [107, 105, 116, 116, 101, 110])) :=
  ⟨⟨by decide, by decide⟩, C19_row_invariant [107, 105, 116, 116, 101, 110] [115, 105, 116, 116, 105, 110, 103] (by decide) (by decide)⟩

end GoLev
